import Mathlib

/-!
# Verification of the autosizer proxy (generation-budget engine and finishers)

Shallow embedding of the Python modules `autosizer_proxy/caps.py`,
`autosizer_proxy/finishers.py`, `autosizer_proxy/prompts.py` and the
streaming transformer of `autosizer_proxy/proxy.py`.

Python JSON-ish values are modelled by the inductive `PyVal` (floats are
modelled as rationals; the claims under verification never exercise IEEE
rounding).  Python `dict`s are modelled as insertion-ordered association
lists with first-match lookup (`Dict`), which matches CPython semantics for
the dictionaries built by this code (unique keys).  Strings are Lean
`String`s; the Python string operations used by the source (`rstrip`,
`strip`, `find`, `rfind`, `split`, `startswith`, `endswith`, slicing and
the two regexes of `finishers.py`) are given explicit executable models on
`List Char`.
-/

set_option autoImplicit false

namespace Autosizer

/-- Model of a Python JSON-ish value (floats are modelled as rationals). -/
inductive PyVal where
  | vNull : PyVal
  | vBool : Bool → PyVal
  | vInt : Int → PyVal
  | vRat : ℚ → PyVal
  | vStr : String → PyVal
  | vList : List PyVal → PyVal
  | vDict : List (String × PyVal) → PyVal

open PyVal

/-- A Python dict: insertion-ordered association list, first-match lookup. -/
abbrev Dict := List (String × PyVal)

/-- Python truthiness (`bool(v)`). -/
def truthy : PyVal → Bool
  | vNull => false
  | vBool b => b
  | vInt n => n ≠ 0
  | vRat q => q ≠ 0
  | vStr s => s ≠ ""
  | vList l => !l.isEmpty
  | vDict d => !d.isEmpty

/-- `d.get(k)`: first binding of `k`, if any. -/
def dGet? (d : Dict) (k : String) : Option PyVal :=
  match d with
  | [] => none
  | (k', v) :: t => if k' = k then some v else dGet? t k

/-- `d.get(k)` with Python's `None` for a missing key. -/
def dGetN (d : Dict) (k : String) : PyVal :=
  (dGet? d k).getD vNull

/-- `k in d`. -/
def dMem (d : Dict) (k : String) : Bool :=
  (dGet? d k).isSome

/-- `d[k] = v`: replace the binding in place, else append at the end. -/
def dSet (d : Dict) (k : String) (v : PyVal) : Dict :=
  match d with
  | [] => [(k, v)]
  | (k', v') :: t => if k' = k then (k, v) :: t else (k', v') :: dSet t k v

/-- `d.setdefault(k, v)`: insert at the end only when the key is absent. -/
def dSetdefault (d : Dict) (k : String) (v : PyVal) : Dict :=
  if dMem d k then d else d ++ [(k, v)]

/-- `d.pop(k, None)`: drop the binding of `k`, if any. -/
def dPop (d : Dict) (k : String) : Dict :=
  match d with
  | [] => []
  | (k', v') :: t => if k' = k then t else (k', v') :: dPop t k

theorem dGet_dSet_self (d : Dict) (k : String) (v : PyVal) :
    dGet? (dSet d k v) k = some v := by
  induction d with
  | nil => simp [dSet, dGet?]
  | cons h t ih =>
    obtain ⟨k', v'⟩ := h
    by_cases hk : k' = k <;> simp [dSet, dGet?, hk, ih]

theorem dGet_dSet_ne (d : Dict) (k k' : String) (v : PyVal) (h : k' ≠ k) :
    dGet? (dSet d k v) k' = dGet? d k' := by
  induction d with
  | nil => simp [dSet, dGet?, Ne.symm h]
  | cons hd t ih =>
    obtain ⟨k₀, v₀⟩ := hd
    by_cases hk : k₀ = k
    · subst hk
      simp [dSet, dGet?, Ne.symm h]
    · simp [dSet, dGet?, hk]
      by_cases hk' : k₀ = k' <;> simp [hk', ih]

theorem dGet_setdefault_mem (d : Dict) (k : String) (v : PyVal) (h : dMem d k = true) :
    dSetdefault d k v = d := by
  simp [dSetdefault, h]

theorem dGet_append_single_ne (d : Dict) (k k' : String) (v : PyVal) (h : k' ≠ k) :
    dGet? (d ++ [(k, v)]) k' = dGet? d k' := by
  induction d with
  | nil => simp [dGet?, Ne.symm h]
  | cons hd t ih =>
    obtain ⟨k₀, v₀⟩ := hd
    by_cases hk : k₀ = k' <;> simp [dGet?, hk, ih]

theorem dGet_setdefault_ne (d : Dict) (k k' : String) (v : PyVal) (h : k' ≠ k) :
    dGet? (dSetdefault d k v) k' = dGet? d k' := by
  by_cases hm : dMem d k
  · simp [dSetdefault, hm]
  · simp [dSetdefault, hm, dGet_append_single_ne d k k' v h]

theorem dMem_dSet (d : Dict) (k k' : String) (v : PyVal) :
    dMem (dSet d k v) k' = (dMem d k' || (k' = k)) := by
  by_cases hk : k' = k
  · subst hk; simp [dMem, dGet_dSet_self]
  · simp [dMem, dGet_dSet_ne d k k' v hk, hk]

theorem dMem_setdefault (d : Dict) (k k' : String) (v : PyVal) (h : k' ≠ k) :
    dMem (dSetdefault d k v) k' = dMem d k' := by
  simp [dMem, dGet_setdefault_ne d k k' v h]

/-! ## Python string primitives -/

/-- ASCII whitespace as recognised by `str.strip()` / `str.split()`
(the source never feeds non-ASCII whitespace). -/
def pyWs (c : Char) : Bool :=
  c = ' ' || c = '\t' || c = '\n' || c = '\r' || c = '\x0b' || c = '\x0c'

/-- `text.rstrip()` on character lists. -/
def rstripL (cs : List Char) : List Char :=
  (cs.reverse.dropWhile pyWs).reverse

/-- `text.lstrip()` on character lists. -/
def lstripL (cs : List Char) : List Char :=
  cs.dropWhile pyWs

/-- `text.strip()` on character lists. -/
def stripL (cs : List Char) : List Char :=
  rstripL (lstripL cs)

/-- `text.strip()`. -/
def pyStrip (s : String) : String :=
  ⟨stripL s.data⟩

/-- `text.rstrip()`. -/
def pyRstrip (s : String) : String :=
  ⟨rstripL s.data⟩

/-- `hay.find(needle)`: index of the leftmost occurrence, if any. -/
def findSub (needle : List Char) (hay : List Char) : Option Nat :=
  match hay with
  | [] => if needle.isEmpty then some 0 else none
  | c :: t => if needle.isPrefixOf (c :: t) then some 0 else (findSub needle t).map (· + 1)

/-- `needle in hay` for strings. -/
def containsSub (needle : List Char) (hay : List Char) : Bool :=
  (findSub needle hay).isSome

/-- `hay.rfind(c)`: index of the rightmost occurrence of a character, if any. -/
def rfindChar (c : Char) (hay : List Char) : Option Nat :=
  match hay with
  | [] => none
  | c' :: t =>
    match rfindChar c t with
    | some i => some (i + 1)
    | none => if c' = c then some 0 else none

/-- Word count of `s.split()` (whitespace-delimited, empties discarded). -/
def wordCountAux (cs : List Char) (inWord : Bool) : Nat :=
  match cs with
  | [] => 0
  | c :: t =>
    if pyWs c then wordCountAux t false
    else (if inWord then 0 else 1) + wordCountAux t true

/-- `len(s.split())`. -/
def wordCount (s : String) : Nat :=
  wordCountAux s.data false

/-- `s.lower()`. -/
def lowerStr (s : String) : String :=
  ⟨s.data.map Char.toLower⟩

/-- `" ".join(parts)`. -/
def joinSpace : List String → String
  | [] => ""
  | [x] => x
  | x :: xs => x ++ " " ++ joinSpace xs

/-! ## finishers.py: sentence and boundary primitives -/

/-- The sentence-ending punctuation class `[.!?。！？]` shared by
`SENT_SPLIT` and `BOUNDARY_PUNCT`. -/
def isSentPunct (c : Char) : Bool :=
  c = '.' || c = '!' || c = '?' || c = '。' || c = '！' || c = '？'

/-- The closing bracket/quote class of `BOUNDARY_PUNCT`. -/
def isCloser (c : Char) : Bool :=
  c = ')' || c = ']' || c = '\'' || c = '"'

/-- The probe order of the `for punct in ".?!。！？"` fallback loop of
`trim_to_boundary`. -/
def trimPunctOrder : List Char := ".?!。！？".data

/-- `text.rfind(c)` tried for each character of `order` in turn, returning
the first hit (models the early-`return` loop of `trim_to_boundary`). -/
def rfindAnyIn (order : List Char) (t : List Char) : Option Nat :=
  match order with
  | [] => none
  | c :: rest =>
    match rfindChar c t with
    | some i => some i
    | none => rfindAnyIn rest t

/-- `BOUNDARY_PUNCT.search(text)` returning `match.end(1)`.
The regex is `([.!?。！？]+[)\]'"]?)\s*$`.  `trim_to_boundary` only applies
it to right-stripped text, where `\s*` can only match the empty string, so
a match exists iff the text ends with a sentence-punctuation run optionally
followed by one closer, and `match.end(1)` is then the full length. -/
def boundaryEnd? (t : List Char) : Option Nat :=
  match t.reverse with
  | [] => none
  | c :: rest =>
    if isSentPunct c then some t.length
    else if isCloser c then
      match rest with
      | [] => none
      | d :: _ => if isSentPunct d then some t.length else none
    else none

/-- The `"```"` fenced-code marker. -/
def fenceMarker : List Char := "```".data

/-- The `"\n\n"` blank-line marker. -/
def blankMarker : List Char := "\n\n".data

/-- `trim_to_boundary` from `finishers.py`, on character lists. -/
def trimToBoundaryL (text : List Char) : List Char :=
  let t := rstripL text
  if t.isEmpty then t
  else
    match findSub fenceMarker t with
    | some i =>
      let p := rstripL (t.take i)
      if p.isEmpty then t else p
    | none =>
      match findSub blankMarker t with
      | some i =>
        let p := rstripL (t.take i)
        if p.isEmpty then t else p
      | none =>
        match boundaryEnd? t with
        | some e => rstripL (t.take e)
        | none =>
          match rfindAnyIn trimPunctOrder t with
          | some i => rstripL (t.take (i + 1))
          | none => t

/-- `trim_to_boundary(text)`. -/
def trim_to_boundary (s : String) : String :=
  ⟨trimToBoundaryL s.data⟩

/-- `END_PUNCT` from `finishers.py`. -/
def END_PUNCT : List String := [".", "?", "!", "。", "！", "？", "..."]

/-- `s.endswith(tuple)`. -/
def endsWithAny (s : String) (ps : List String) : Bool :=
  ps.any fun p => p.data.isSuffixOf s.data

/-- State machine equivalent to splitting on `SENT_SPLIT = (?<=[.!?。！？])\s+`:
`inSkip` is true while consuming a whitespace run that started right after a
sentence-punctuation character; `prevPunct` records whether the previously
consumed character is sentence punctuation (the single-character
lookbehind). -/
def sentGo (inSkip : Bool) (prevPunct : Bool) (cur : List Char) (cs : List Char) :
    List (List Char) :=
  match cs with
  | [] => [cur.reverse]
  | c :: t =>
    if inSkip then
      if pyWs c then sentGo true false cur t
      else sentGo false (isSentPunct c) [c] t
    else if prevPunct && pyWs c then
      cur.reverse :: sentGo true false [] t
    else
      sentGo false (isSentPunct c) (c :: cur) t

/-- `SENT_SPLIT.split(s)`. -/
def sentSplit (s : String) : List String :=
  (sentGo false false [] s.data).map fun l => ⟨l⟩

/-- `keep_first_sentences(text, n)` from `finishers.py`. -/
def keep_first_sentences (text : String) (n : Nat) : String :=
  let parts := sentSplit (pyStrip text)
  if parts.isEmpty then text
  else joinSpace (parts.take n)

/-! ## config.py: startup configuration -/

/-- `INF = 10 ** 9` from `config.py`. -/
def INF : Int := 1000000000

/-- The startup configuration read once by `config.py` (environment
overridable; theorems quantify over it). -/
structure Cfg where
  SHORT_MAX : Int
  NORMAL_MAX : Int
  CAP_SHORT : Dict
  CAP_NORMAL : Dict
  CAP_DEEP : Dict
  TAIL_TOKENS : Int
  CHARS_PER_TOKEN : ℚ
  SHORT_SENTENCES : Int
  MODEL_DOWNGRADE : Bool
  FALLBACK_7B : String
  DEFAULT_SYSTEM_SHORT : String

/-! ## caps.py -/

/-- `DETAIL_KEYWORDS` from `caps.py` (a set; only membership is used). -/
def DETAIL_KEYWORDS : List String :=
  ["example", "examples", "compare", "comparison", "contrast", "advantages",
   "disadvantages", "benefits", "best", "pros", "cons", "explain",
   "explanation", "why", "how", "detailed", "detail", "step-by-step"]

/-- `has_rag(body)`: `bool(body.get("files") or body.get("collection") or
body.get("collections"))`. -/
def has_rag (body : Dict) : Bool :=
  truthy (dGetN body "files") || truthy (dGetN body "collection") ||
    truthy (dGetN body "collections")

/-- `_caps_with_mode(template, mode)`. -/
def caps_with_mode (template : Dict) (mode : String) : Dict :=
  dSet template "_mode" (vStr mode)

mutual

/-- `_collapse_content(value)`: flatten message content to plain text.
The fallback `str(value or "")` is rendered per Python `str()` on the
scalar constructors. -/
def collapseContent : PyVal → String
  | vStr s => s
  | vDict d => collapseDictText d
  | vList l => joinSpace (collapseList l)
  | vNull => ""
  | vBool b => if b then "True" else ""
  | vInt n => if n = 0 then "" else toString n
  | vRat q => if q = 0 then "" else toString q

/-- `_collapse_content(value.get("text") or "")` for a dict value: first
`"text"` binding, recursing only on a truthy value. -/
def collapseDictText : List (String × PyVal) → String
  | [] => ""
  | (k, v) :: t =>
    if k = "text" then (if truthy v then collapseContent v else "")
    else collapseDictText t

/-- Pointwise `_collapse_content` over a content list. -/
def collapseList : List PyVal → List String
  | [] => []
  | v :: t => collapseContent v :: collapseList t

end

/-- `m.get(k)` for a message (Python raises on non-dict messages; the
theorems' well-formedness hypotheses restrict to dict messages). -/
def msgGet? (m : PyVal) (k : String) : Option PyVal :=
  match m with
  | vDict d => dGet? d k
  | _ => none

/-- `msg.get("role") == "user"`. -/
def roleIsUser (m : PyVal) : Bool :=
  match msgGet? m "role" with
  | some (vStr r) => r = "user"
  | _ => false

/-- The `for msg in reversed(messages)` loop of `_chat_prompt_excerpt`
(call with the already-reversed list): last user message whose collapsed
content is non-blank, stripped. -/
def lastUserExcerpt? : List PyVal → Option String
  | [] => none
  | m :: rest =>
    if roleIsUser m then
      let c := pyStrip (collapseContent ((msgGet? m "content").getD vNull))
      if c ≠ "" then some c else lastUserExcerpt? rest
    else lastUserExcerpt? rest

/-- `_chat_prompt_excerpt(messages)`. -/
def chat_prompt_excerpt (v : PyVal) : String :=
  match v with
  | vList ms =>
    match lastUserExcerpt? ms.reverse with
    | some s => s
    | none =>
      pyStrip (joinSpace ((ms.filter roleIsUser).map
        fun m => collapseContent ((msgGet? m "content").getD vNull)))
  | _ => ""

/-- `_prompt_excerpt(body)`: `(body.get("prompt") or "").strip()`, else the
chat excerpt.  A truthy non-string prompt raises in Python; the
well-formedness hypotheses exclude it. -/
def prompt_excerpt (body : Dict) : String :=
  let p := pyStrip (match dGetN body "prompt" with | vStr s => s | _ => "")
  if p ≠ "" then p else chat_prompt_excerpt (dGetN body "messages")

/-- `any(keyword in lower_excerpt for keyword in DETAIL_KEYWORDS)`. -/
def wantsDetail (excerpt : String) : Bool :=
  DETAIL_KEYWORDS.any fun kw => containsSub kw.data (lowerStr excerpt).data

/-- `choose_caps(body)` from `caps.py`. -/
def choose_caps (cfg : Cfg) (body : Dict) : Dict :=
  if has_rag body then caps_with_mode cfg.CAP_DEEP "deep"
  else
    let excerpt := prompt_excerpt body
    let n : Int := wordCount excerpt
    let wd := wantsDetail excerpt
    if n ≤ cfg.SHORT_MAX then
      if wd then caps_with_mode cfg.CAP_NORMAL "normal"
      else caps_with_mode cfg.CAP_SHORT "short"
    else if n ≤ cfg.NORMAL_MAX then
      if wd then caps_with_mode cfg.CAP_DEEP "deep"
      else caps_with_mode cfg.CAP_NORMAL "normal"
    else caps_with_mode cfg.CAP_DEEP "deep"

/-- Value of a non-empty all-digit character run. -/
def digitsVal? (cs : List Char) : Option Int :=
  if cs.isEmpty then none
  else if cs.all Char.isDigit then
    some (cs.foldl (fun a c => a * 10 + ((c.toNat : Int) - ('0'.toNat : Int))) 0)
  else none

/-- Python `int(s)` on a string: optional surrounding whitespace, optional
sign, decimal digits (digit-group underscores are not modelled; no claim
depends on which strings parse). -/
def parseIntStr (s : String) : Option Int :=
  match stripL s.data with
  | [] => none
  | c :: rest =>
    if c = '+' then digitsVal? rest
    else if c = '-' then (digitsVal? rest).map Neg.neg
    else digitsVal? (c :: rest)

/-- `int(q)` truncates toward zero. -/
def pyIntOfRat (q : ℚ) : Int :=
  if q ≥ 0 then q.floor else -((-q).floor)

/-- The `try: int(val)` body of `safe_int`: `none` models both the explicit
`val is None` branch and an exception (containers raise `TypeError`). -/
def pyToInt? : PyVal → Option Int
  | vNull => none
  | vBool b => some (if b then 1 else 0)
  | vInt n => some n
  | vRat q => some (pyIntOfRat q)
  | vStr s => parseIntStr s
  | vList _ => none
  | vDict _ => none

/-- `safe_int(val, default)` from `caps.py` (with an integer default). -/
def safe_int (v : PyVal) (default : Int) : Int :=
  (pyToInt? v).getD default

/-- `dict(body.get("options") or {})`: falsy values give `{}`; a truthy
non-mapping raises (modelled as `none`). -/
def optsDictOf (body : Dict) : Option Dict :=
  match dGetN body "options" with
  | vDict d => some d
  | v => if truthy v then none else some []

/-- `k not in opts or opts[k] is None`. -/
def absentOrNone (o : Option PyVal) : Bool :=
  match o with
  | none => true
  | some vNull => true
  | some _ => false

/-- `extract_client_options(body)` from `caps.py`. -/
def extract_client_options (body : Dict) : Option Dict :=
  match optsDictOf body with
  | none => none
  | some o0 =>
    let o1 := if dMem body "stream" && !dMem o0 "stream" then
        dSet o0 "stream" (dGetN body "stream") else o0
    let o2 := if dMem body "temperature" && absentOrNone (dGet? o1 "temperature") then
        dSet o1 "temperature" (dGetN body "temperature") else o1
    let o3 := if dMem body "stop" && absentOrNone (dGet? o2 "stop") then
        dSet o2 "stop" (dGetN body "stop") else o2
    let o4 := if dMem body "max_tokens" && (pyToInt? (dGetN o3 "num_predict")).isNone then
        dSet o3 "num_predict" (dGetN body "max_tokens") else o3
    let o5 := if absentOrNone (dGet? o4 "num_predict") then dPop o4 "num_predict" else o4
    let o6 := if absentOrNone (dGet? o5 "num_ctx") then dPop o5 "num_ctx" else o5
    some o6

/-- The `if key in chosen: out[key] = min(safe_int(out.get(key), INF),
safe_int(chosen[key], INF))` block of `clamp_options`, which the code
repeats verbatim for `"num_predict"` and `"num_ctx"`. -/
def clampNumKey (chosen : Dict) (out : Dict) (k : String) : Dict :=
  if dMem chosen k then
    dSet out k (vInt (min (safe_int (dGetN out k) INF) (safe_int (dGetN chosen k) INF)))
  else out

/-- `clamp_options(chosen, client)` from `caps.py`. -/
def clamp_options (chosen : Dict) (client : Dict) : Dict :=
  let out1 := clampNumKey chosen client "num_predict"
  let out2 := clampNumKey chosen out1 "num_ctx"
  let out3 := dSetdefault out2 "temperature" ((dGet? chosen "temperature").getD (vRat (7 / 10)))
  let out4 := dSetdefault out3 "repeat_penalty" ((dGet? chosen "repeat_penalty").getD (vRat (6 / 5)))
  if dMem chosen "stop" && !dMem out4 "stop" then dSet out4 "stop" (dGetN chosen "stop") else out4

/-- `(body.get("model") or "")`, which must be a string for the later
`.lower()` (a truthy non-string raises; modelled as `none`). -/
def modelStrOf (body : Dict) : Option String :=
  match dGetN body "model" with
  | vStr s => some s
  | v => if truthy v then none else some ""

/-- `maybe_downgrade_model(body, chosen)` from `caps.py`. -/
def maybe_downgrade_model (cfg : Cfg) (body : Dict) (chosen : Dict) : Option Dict :=
  match modelStrOf body with
  | none => none
  | some model =>
    if cfg.MODEL_DOWNGRADE && (safe_int (dGetN chosen "num_predict") INF ≤ 200) &&
        !has_rag body && containsSub "14b".data (lowerStr model).data then
      some (dSet body "model" (vStr cfg.FALLBACK_7B))
    else some body

/-- `chosen.get("_mode") != "short"`, negated. -/
def modeIsShort (chosen : Dict) : Bool :=
  match dGetN chosen "_mode" with
  | vStr s => s = "short"
  | _ => false

/-- `should_trim_short(body, chosen, want_stream)` from `caps.py`. -/
def should_trim_short (cfg : Cfg) (body : Dict) (chosen : Dict) (wantStream : Bool) : Bool :=
  if wantStream then false
  else if cfg.SHORT_SENTENCES ≤ 0 then false
  else if !modeIsShort chosen then false
  else if has_rag body then false
  else true

/-- The trim plan dict built by `compute_trim_config`. -/
structure TrimCfg where
  sentences : Int
  base_tokens : Option Int
  tail_tokens : Int
  chars_per_token : ℚ

/-- `compute_trim_config(body, chosen, want_stream, client_opts,
base_predict)` from `caps.py`. -/
def compute_trim_config (cfg : Cfg) (body : Dict) (chosen : Dict) (wantStream : Bool)
    (clientOpts : Dict) (basePredict : Int) : Option TrimCfg :=
  if !should_trim_short cfg body chosen wantStream then none
  else
    let clientLimit := safe_int (dGetN clientOpts "num_predict") INF
    let tailAdd : Int :=
      if cfg.TAIL_TOKENS > 0 && basePredict < INF then
        if clientLimit = INF then cfg.TAIL_TOKENS
        else if clientLimit > basePredict then min cfg.TAIL_TOKENS (clientLimit - basePredict)
        else 0
      else 0
    some { sentences := max 1 cfg.SHORT_SENTENCES,
           base_tokens := if basePredict ≥ INF then none else some basePredict,
           tail_tokens := tailAdd,
           chars_per_token := max (1 / 10) cfg.CHARS_PER_TOKEN }

/-! ## finishers.py: composite finishers -/

/-- `candidate or text` for strings: the candidate unless it is empty. -/
def orElseText (candidate text : String) : String :=
  if candidate ≠ "" then candidate else text

/-- `finish_short_text(text, config)` from `finishers.py`.  The Python
`x or default` fallbacks on the plan fields are rendered through their
truthiness (`None`/`0` select the default). -/
def finish_short_text (cfg : Cfg) (text : String) (config : TrimCfg) : String :=
  let raw := pyStrip text
  if raw = "" then text
  else
    let baseTokens : Int := config.base_tokens.getD 0
    let tailTokens : Int := config.tail_tokens
    let charsPerToken : ℚ :=
      if config.chars_per_token = 0 then cfg.CHARS_PER_TOKEN else config.chars_per_token
    let sentences : Int :=
      if config.sentences = 0 then cfg.SHORT_SENTENCES else config.sentences
    let raw1 :=
      if baseTokens > 0 && charsPerToken > 0 then
        let windowTokens := baseTokens + max 0 tailTokens
        let maxChars := pyIntOfRat ((windowTokens : ℚ) * charsPerToken)
        if maxChars > 0 && (raw.data.length : Int) > maxChars then
          (⟨rstripL (raw.data.take maxChars.toNat)⟩ : String)
        else raw
      else raw
    let trimmed := pyStrip (keep_first_sentences raw1 (max 1 sentences).toNat)
    let trimmed1 :=
      if tailTokens > 0 then orElseText (trim_to_boundary trimmed) trimmed
      else trimmed
    orElseText trimmed1 text

/-- The `_tidy` closure of `apply_length_cutoff_finisher`, on the string
case (`_tidy` returns any non-string argument unchanged). -/
def tidyStr (s : String) : String :=
  let trimmed := trim_to_boundary s
  if trimmed ≠ s then trimmed ++ " ..."
  else if trimmed ≠ "" && !endsWithAny trimmed END_PUNCT then trimmed ++ " ..."
  else trimmed

/-- `done_reason == "length"`. -/
def reasonIsLength (payload : Dict) : Bool :=
  match dGetN payload "done_reason" with
  | vStr s => s = "length"
  | _ => false

/-- The string value of an optional field, when it is one. -/
def strVal? (o : Option PyVal) : Option String :=
  match o with
  | some (vStr s) => some s
  | _ => none

/-- The dict value of an optional field, when it is one
(`isinstance(x, dict)`). -/
def dictVal? (o : Option PyVal) : Option (List (String × PyVal)) :=
  match o with
  | some (vDict d) => some d
  | _ => none

/-- The `if "response" in payload` block of `apply_length_cutoff_finisher`
(`_tidy` leaves non-string values unchanged, so only a present string field
can change, and `cleaned != original` is then string inequality). -/
def lengthRespPhase (payload : Dict) : Dict × Bool :=
  match strVal? (dGet? payload "response") with
  | some s =>
    let cleaned := tidyStr s
    if cleaned ≠ s then (dSet payload "response" (vStr cleaned), true)
    else (payload, false)
  | none => (payload, false)

/-- The `isinstance(message, dict)` block of `apply_length_cutoff_finisher`,
acting on the state left by the response block. -/
def lengthMsgPhase (st : Dict × Bool) : Dict × Bool :=
  match dictVal? (dGet? st.1 "message") with
  | some m =>
    (match strVal? (dGet? m "content") with
     | some s =>
       let cleaned := tidyStr s
       if cleaned ≠ s then
         (dSet st.1 "message" (vDict (dSet m "content" (vStr cleaned))), true)
       else st
     | none => st)
  | none => st

/-- `apply_length_cutoff_finisher(payload)` from `finishers.py`: the
mutated payload together with the returned `changed` flag. -/
def apply_length_cutoff_finisher (payload : Dict) : Dict × Bool :=
  if !reasonIsLength payload then (payload, false)
  else lengthMsgPhase (lengthRespPhase payload)

/-! ## prompts.py -/

/-- `msgs[0].get("role") == "system"`. -/
def roleIsSystem (m : PyVal) : Bool :=
  match msgGet? m "role" with
  | some (vStr r) => r = "system"
  | _ => false

/-- `inject_concise_system(body, chosen)` from `prompts.py`. -/
def inject_concise_system (cfg : Cfg) (body : Dict) (chosen : Dict) : Dict :=
  if !modeIsShort chosen then body
  else if has_rag body then body
  else
    match dGetN body "messages" with
    | vList (m :: rest) =>
      if roleIsSystem m then body
      else
        dSet body "messages"
          (vList (vDict [("role", vStr "system"), ("content", vStr cfg.DEFAULT_SYSTEM_SHORT)]
            :: m :: rest))
    | _ =>
      dSet body "prompt"
        (vStr (cfg.DEFAULT_SYSTEM_SHORT ++ "\n\n" ++
          (match dGetN body "prompt" with | vStr s => s | _ => "")))

/-! ## proxy.py: streaming transformer and trim feedback -/

/-- The textual fragment of a parsed stream event
(`parsed.get("response")` when it is a string, else nothing). -/
def fragOf (d : Dict) : String :=
  match dGet? d "response" with
  | some (vStr s) => s
  | _ => ""

/-- Concatenation of the fragments of a list of events
(`"".join(full_response_parts)`). -/
def concatFrags : List Dict → String
  | [] => ""
  | d :: t => fragOf d ++ concatFrags t

/-- The `cleaned` text computed by the length-cutoff endgame of
`stream_upstream.gen` from the accumulated full response text. -/
def cleanedOf (full : String) : String :=
  let c0 := pyStrip full
  let bounded := trim_to_boundary c0
  let c1 := if bounded ≠ "" then pyStrip bounded else c0
  let c2 := if c1 = "" then pyStrip full else c1
  if c2 ≠ "" && !endsWithAny c2 END_PUNCT then c2 ++ " ..." else c2

/-- The `tail` of the endgame: `cleaned[len(full_text):]` when `cleaned`
starts with the accumulated full text, else empty. -/
def tailOfStream (full : String) : String :=
  let cleaned := cleanedOf full
  if full.data.isPrefixOf cleaned.data then ⟨cleaned.data.drop full.data.length⟩ else ""

/-- The metadata keys copied onto the synthesized tail event. -/
def metaKeys : List String := ["model", "created_at", "conversation_id", "id"]

/-- The synthesized non-terminal tail event. -/
def mkTailChunk (combined : String) (pending : Dict) : Dict :=
  metaKeys.foldl (fun acc k => if dMem pending k then dSet acc k (dGetN pending k) else acc)
    [("response", vStr combined), ("done", vBool false)]

/-- `pending_parsed.get("done") and pending_parsed.get("done_reason") == "length"`. -/
def isLengthDone (d : Dict) : Bool :=
  truthy (dGetN d "done") &&
    (match dGetN d "done_reason" with | vStr s => s = "length" | _ => false)

/-- End-of-stream handling of `stream_upstream.gen` for the held event,
given the accumulated full response text. -/
def streamFinale (full : String) (pending : Dict) : List Dict :=
  if isLengthDone pending then
    let cleaned := cleanedOf full
    let originalPiece := fragOf pending
    let tail := tailOfStream full
    let combined := originalPiece ++ tail
    let tailChunks := if combined ≠ "" then [mkTailChunk combined pending] else []
    let withMsg :=
      match dGet? pending "message" with
      | some (vDict m) => dSet pending "message" (vDict (dSet m "content" (vStr cleaned)))
      | _ => pending
    tailChunks ++ [dSet withMsg "response" (vStr "")]
  else [pending]

/-- The lookahead loop of `stream_upstream.gen`: forward the held event,
hold the new one, accumulate its fragment. -/
def streamGo (fullAcc : String) (pending : Dict) : List Dict → List Dict
  | [] => streamFinale fullAcc pending
  | d :: rest => pending :: streamGo (fullAcc ++ fragOf d) d rest

/-- `stream_upstream.gen` restricted to a stream of parseable NDJSON
events (the scope of claim C1). -/
def streamTransform : List Dict → List Dict
  | [] => []
  | d :: rest => streamGo (fragOf d) d rest

/-- The trim-feedback block of `handle_model_request` (proxy.py): when a
plan carries a non-zero tail allowance and a truthy bounded base, the
outbound `num_predict` becomes base plus allowance. -/
def apply_trim_feedback (finalOpts : Dict) (trimConfig : Option TrimCfg) : Dict :=
  match trimConfig with
  | none => finalOpts
  | some tc =>
    match tc.base_tokens with
    | some b =>
      if tc.tail_tokens ≠ 0 && b ≠ 0 && b < INF then
        dSet finalOpts "num_predict" (vInt (b + tc.tail_tokens))
      else finalOpts
    | none => finalOpts

/-! ## Helper lemmas on the string primitives -/

theorem rstripL_eq_rdropWhile (cs : List Char) : rstripL cs = cs.rdropWhile pyWs := rfl

theorem rstripL_idem (cs : List Char) : rstripL (rstripL cs) = rstripL cs := by
  simp [rstripL_eq_rdropWhile, List.rdropWhile_idempotent]

theorem rstripL_prefix (cs : List Char) : rstripL cs <+: cs := by
  rw [rstripL_eq_rdropWhile]
  exact List.rdropWhile_prefix pyWs cs

theorem rstripL_append_not_ws (x : List Char) (c : Char) (h : pyWs c = false) :
    rstripL (x ++ [c]) = x ++ [c] := by
  rw [rstripL_eq_rdropWhile]
  exact List.rdropWhile_concat_neg pyWs x c (by simp [h])

theorem containsSub_iff_occurs (m : List Char) (hm : m ≠ []) (h : List Char) :
    containsSub m h = true ↔ m <:+: h := by
  induction h with
  | nil =>
    simp [containsSub, findSub, List.isEmpty_iff, hm]
  | cons c t ih =>
    by_cases hp : m.isPrefixOf (c :: t)
    · simp only [containsSub, findSub, hp, if_true, Option.isSome_some, true_iff]
      exact (List.isPrefixOf_iff_prefix.mp hp).isInfix
    · have heq : containsSub m (c :: t) = containsSub m t := by
        simp [containsSub, findSub, hp]
      rw [heq, ih, List.infix_cons_iff]
      have hnp : ¬m <+: (c :: t) := fun hh => hp (List.isPrefixOf_iff_prefix.mpr hh)
      tauto

theorem containsSub_mono_false (m p t : List Char) (hm : m ≠ []) (hpt : p <+: t)
    (h : containsSub m t = false) : containsSub m p = false := by
  by_contra hc
  have h1 : containsSub m p = true := by
    cases hcp : containsSub m p
    · exact absurd hcp hc
    · rfl
  have h2 : m <:+: t := ((containsSub_iff_occurs m hm p).mp h1).trans hpt.isInfix
  rw [(containsSub_iff_occurs m hm t).mpr h2] at h
  exact Bool.noConfusion h

theorem findSub_none_of_not_contains (m t : List Char) (h : containsSub m t = false) :
    findSub m t = none := by
  cases hf : findSub m t
  · rfl
  · rw [containsSub, hf] at h
    exact Bool.noConfusion h

theorem rfindChar_take (c : Char) (t : List Char) (i : Nat) (h : rfindChar c t = some i) :
    t.take (i + 1) = t.take i ++ [c] := by
  induction t generalizing i with
  | nil => simp [rfindChar] at h
  | cons c' t' ih =>
    simp only [rfindChar] at h
    cases hr : rfindChar c t' with
    | some j =>
      rw [hr] at h
      have hij : i = j + 1 := by injection h with h'; omega
      subst hij
      simp [List.take_succ_cons, ih j hr]
    | none =>
      rw [hr] at h
      by_cases hc : c' = c
      · rw [if_pos hc] at h
        have hi : i = 0 := by injection h with h'; omega
        subst hi hc
        simp
      · rw [if_neg hc] at h
        exact Option.noConfusion h

theorem rfindChar_none_iff (c : Char) (t : List Char) : rfindChar c t = none ↔ c ∉ t := by
  induction t with
  | nil => simp [rfindChar]
  | cons c' t' ih =>
    simp only [rfindChar, List.mem_cons]
    cases hr : rfindChar c t' with
    | some j =>
      have hmem : c ∈ t' := by
        by_contra hmem
        exact Option.noConfusion (hr ▸ ih.mpr hmem)
      simp [hmem]
    | none =>
      by_cases hc : c' = c
      · subst hc
        simp
      · have h1 : c ∉ t' := ih.mp hr
        have h2 : ¬c = c' := fun hh => hc hh.symm
        simp [hc, h1, h2]

theorem rfindAnyIn_some_exists (order t : List Char) (i : Nat)
    (h : rfindAnyIn order t = some i) : ∃ c ∈ order, rfindChar c t = some i := by
  induction order with
  | nil => simp [rfindAnyIn] at h
  | cons c rest ih =>
    rw [rfindAnyIn] at h
    cases hr : rfindChar c t with
    | some j =>
      rw [hr] at h
      simp only [Option.some.injEq] at h
      exact ⟨c, List.mem_cons_self c rest, by rw [hr, h]⟩
    | none =>
      rw [hr] at h
      obtain ⟨c', hc', hrc'⟩ := ih h
      exact ⟨c', List.mem_cons_of_mem c hc', hrc'⟩

theorem rfindAnyIn_none_all (order t : List Char) (h : rfindAnyIn order t = none) :
    ∀ c ∈ order, rfindChar c t = none := by
  induction order with
  | nil => simp
  | cons c rest ih =>
    rw [rfindAnyIn] at h
    cases hr : rfindChar c t with
    | some j => rw [hr] at h; exact Option.noConfusion h
    | none =>
      rw [hr] at h
      intro c' hc'
      rcases List.mem_cons.mp hc' with hrfl | hmem
      · rw [hrfl]; exact hr
      · exact ih h c' hmem

theorem boundaryEnd?_length (t : List Char) (e : Nat) (h : boundaryEnd? t = some e) :
    e = t.length := by
  unfold boundaryEnd? at h
  split at h
  · exact Option.noConfusion h
  · split at h
    · injection h with h'
      omega
    · split at h
      · split at h
        · exact Option.noConfusion h
        · split at h
          · injection h with h'
            omega
          · exact Option.noConfusion h
      · exact Option.noConfusion h

theorem boundaryEnd?_concat_punct (x : List Char) (c : Char) (h : isSentPunct c = true) :
    boundaryEnd? (x ++ [c]) = some (x ++ [c]).length := by
  simp [boundaryEnd?, List.reverse_append, h]

theorem boundaryEnd?_none_of_no_punct (t : List Char) (h : ∀ c ∈ t, isSentPunct c = false) :
    boundaryEnd? t = none := by
  rcases ht : t.reverse with _ | ⟨c, rest⟩
  · simp [boundaryEnd?, ht]
  · have hc : c ∈ t := by
      rw [← List.mem_reverse, ht]
      exact List.mem_cons_self c rest
    have h1 : isSentPunct c = false := h c hc
    simp only [boundaryEnd?, ht, h1, Bool.false_eq_true, if_false]
    by_cases h2 : isCloser c
    · rw [if_pos h2]
      rcases rest with _ | ⟨d, rest'⟩
      · rfl
      · have hd : d ∈ t := by
          rw [← List.mem_reverse, ht]
          exact List.mem_cons_of_mem c (List.mem_cons_self d rest')
        simp [h d hd]
    · rw [if_neg h2]

theorem trimPunctOrder_isSentPunct : ∀ c ∈ trimPunctOrder, isSentPunct c = true := by decide

theorem trimPunctOrder_not_ws : ∀ c ∈ trimPunctOrder, pyWs c = false := by decide

theorem isSentPunct_mem_trimPunctOrder (c : Char) (h : isSentPunct c = true) :
    c ∈ trimPunctOrder := by
  simp only [isSentPunct, Bool.or_eq_true, decide_eq_true_eq] at h
  rcases h with ((((h | h) | h) | h) | h) | h <;> subst h <;> decide

theorem fenceMarker_ne_nil : fenceMarker ≠ [] := by decide

theorem blankMarker_ne_nil : blankMarker ≠ [] := by decide

theorem bool_eq_true_of_ne_false {b : Bool} (h : b ≠ false) : b = true := by
  cases b
  · exact absurd rfl h
  · rfl

/-- `trim_to_boundary` fixes any right-stripped, marker-free text that is
empty, ends at a sentence boundary, or contains no sentence punctuation. -/
theorem trimL_eq_self (u : List Char) (hu : rstripL u = u)
    (hf : findSub fenceMarker u = none) (hb : findSub blankMarker u = none)
    (hend : u = [] ∨ boundaryEnd? u = some u.length ∨ rfindAnyIn trimPunctOrder u = none) :
    trimToBoundaryL u = u := by
  rcases hend with hnil | hbe | hrf
  · subst hnil
    rfl
  · simp [trimToBoundaryL, hu, hf, hb, hbe]
  · have hnp : ∀ c ∈ u, isSentPunct c = false := by
      intro c hc
      by_contra hcp
      have h1 : isSentPunct c = true := bool_eq_true_of_ne_false hcp
      have h2 := rfindAnyIn_none_all _ _ hrf c (isSentPunct_mem_trimPunctOrder c h1)
      exact ((rfindChar_none_iff c u).mp h2) hc
    have hbe : boundaryEnd? u = none := boundaryEnd?_none_of_no_punct u hnp
    simp [trimToBoundaryL, hu, hf, hb, hbe, hrf]

/-- On marker-free input, `trim_to_boundary` is idempotent (list level). -/
theorem trimL_trimL (s : List Char) (hf : containsSub fenceMarker s = false)
    (hb : containsSub blankMarker s = false) :
    trimToBoundaryL (trimToBoundaryL s) = trimToBoundaryL s := by
  have hts : rstripL s <+: s := rstripL_prefix s
  have hf' : containsSub fenceMarker (rstripL s) = false :=
    containsSub_mono_false _ _ _ fenceMarker_ne_nil hts hf
  have hb' : containsSub blankMarker (rstripL s) = false :=
    containsSub_mono_false _ _ _ blankMarker_ne_nil hts hb
  have hff : findSub fenceMarker (rstripL s) = none := findSub_none_of_not_contains _ _ hf'
  have hfb : findSub blankMarker (rstripL s) = none := findSub_none_of_not_contains _ _ hb'
  have hidem : rstripL (rstripL s) = rstripL s := rstripL_idem s
  by_cases hE : rstripL s = []
  · have h1 : trimToBoundaryL s = rstripL s := by
      simp [trimToBoundaryL, hE]
    rw [h1, hE]
    rfl
  · cases hBE : boundaryEnd? (rstripL s) with
    | some e =>
      have he : e = (rstripL s).length := boundaryEnd?_length _ _ hBE
      have h1 : trimToBoundaryL s = rstripL s := by
        simp [trimToBoundaryL, hE, hff, hfb, hBE, he, hidem]
      rw [h1]
      exact trimL_eq_self _ hidem hff hfb (Or.inr (Or.inl (by rw [hBE, he])))
    | none =>
      cases hRF : rfindAnyIn trimPunctOrder (rstripL s) with
      | some i =>
        obtain ⟨c, hcmem, hrc⟩ := rfindAnyIn_some_exists _ _ _ hRF
        have htake := rfindChar_take c (rstripL s) i hrc
        have hpunct : isSentPunct c = true := trimPunctOrder_isSentPunct c hcmem
        have hnws : pyWs c = false := trimPunctOrder_not_ws c hcmem
        have hrs : rstripL ((rstripL s).take i ++ [c]) = (rstripL s).take i ++ [c] :=
          rstripL_append_not_ws _ _ hnws
        have h1 : trimToBoundaryL s = (rstripL s).take i ++ [c] := by
          simp [trimToBoundaryL, hE, hff, hfb, hBE, hRF, htake, hrs]
        have hupref : (rstripL s).take i ++ [c] <+: rstripL s := by
          rw [← htake]
          exact List.take_prefix (i + 1) (rstripL s)
        have hfu : findSub fenceMarker ((rstripL s).take i ++ [c]) = none :=
          findSub_none_of_not_contains _ _
            (containsSub_mono_false _ _ _ fenceMarker_ne_nil hupref hf')
        have hbu : findSub blankMarker ((rstripL s).take i ++ [c]) = none :=
          findSub_none_of_not_contains _ _
            (containsSub_mono_false _ _ _ blankMarker_ne_nil hupref hb')
        rw [h1]
        exact trimL_eq_self _ hrs hfu hbu
          (Or.inr (Or.inl (boundaryEnd?_concat_punct _ _ hpunct)))
      | none =>
        have h1 : trimToBoundaryL s = rstripL s := by
          have hnp : ∀ c ∈ rstripL s, isSentPunct c = false := by
            intro c hc
            by_contra hcp
            have hct : isSentPunct c = true := bool_eq_true_of_ne_false hcp
            have h2 := rfindAnyIn_none_all _ _ hRF c (isSentPunct_mem_trimPunctOrder c hct)
            exact ((rfindChar_none_iff c (rstripL s)).mp h2) hc
          simp [trimToBoundaryL, hE, hff, hfb, hBE, hRF]
        rw [h1]
        exact trimL_eq_self _ hidem hff hfb (Or.inr (Or.inr hRF))

/-! ## Claim C7: spec reading of `trim_to_boundary` -/

/-- "cut at position `i` (right-trimmed)". -/
def cutRstrip (t : List Char) (i : Nat) : List Char :=
  rstripL (t.take i)

/-- Rightmost index satisfying a predicate (the claim's "right-most
occurrence anywhere of any sentence-ending punctuation"). -/
def rfindP (p : Char → Bool) (cs : List Char) : Option Nat :=
  match cs with
  | [] => none
  | c :: t =>
    match rfindP p t with
    | some i => some (i + 1)
    | none => if p c then some 0 else none

/-- Claim C7 as stated: right-trim; cut at the first marker occurrence;
else return text ending at a trailing boundary unchanged; else cut after
the right-most occurrence anywhere of **any** sentence-ending punctuation;
else return unchanged. -/
def trimClaimL (text : List Char) : List Char :=
  let t := rstripL text
  if t.isEmpty then t
  else
    match findSub fenceMarker t with
    | some i => cutRstrip t i
    | none =>
      match findSub blankMarker t with
      | some i => cutRstrip t i
      | none =>
        if (boundaryEnd? t).isSome then t
        else
          match rfindP isSentPunct t with
          | some i => cutRstrip t (i + 1)
          | none => t

/-- Claim C7 as stated, on strings. -/
def trimToBoundaryClaim (s : String) : String :=
  ⟨trimClaimL s.data⟩

/-- Amended claim C7: as the claim, except that a marker cut which would
empty the text returns the text unchanged, and the final fallback tries
`'.'`, `'?'`, `'!'`, `'。'`, `'！'`, `'？'` in that order and cuts after
the right-most occurrence of the first character that occurs at all. -/
def trimAmendedL (text : List Char) : List Char :=
  let t := rstripL text
  if t.isEmpty then t
  else
    match (findSub fenceMarker t).map (cutRstrip t) with
    | some p => if p.isEmpty then t else p
    | none =>
      match (findSub blankMarker t).map (cutRstrip t) with
      | some p => if p.isEmpty then t else p
      | none =>
        if (boundaryEnd? t).isSome then t
        else
          match rfindAnyIn trimPunctOrder t with
          | some i => cutRstrip t (i + 1)
          | none => t

/-- Amended claim C7, on strings. -/
def trimToBoundaryAmended (s : String) : String :=
  ⟨trimAmendedL s.data⟩

theorem trimL_eq_amended (text : List Char) : trimToBoundaryL text = trimAmendedL text := by
  simp only [trimToBoundaryL, trimAmendedL, cutRstrip]
  by_cases hE : (rstripL text).isEmpty
  · simp [hE]
  · cases hf : findSub fenceMarker (rstripL text) with
    | some i => simp [hE, hf, cutRstrip]
    | none =>
      cases hbk : findSub blankMarker (rstripL text) with
      | some i => simp [hE, hf, hbk, cutRstrip]
      | none =>
        cases hbe : boundaryEnd? (rstripL text) with
        | some e =>
          have he := boundaryEnd?_length _ _ hbe
          simp [hE, hf, hbk, hbe, he, rstripL_idem]
        | none =>
          cases hrf : rfindAnyIn trimPunctOrder (rstripL text) with
          | some i => simp [hE, hf, hbk, hbe, hrf]
          | none => simp [hE, hf, hbk, hbe, hrf]

/-- C7 (counterexample): the claim's "right-most occurrence anywhere of any
sentence-ending punctuation" is wrong — the code probes `'.'` before `'?'`
and keeps the first hit, so `"Hi.Bye? x"` trims to `"Hi."`, not
`"Hi.Bye?"`; and a fenced-code marker at position 0 makes the cut empty, in
which case the code returns the text unchanged rather than cutting. -/
theorem c7_trim_to_boundary_counterexample :
    trim_to_boundary "Hi.Bye? x" = "Hi." ∧ trimToBoundaryClaim "Hi.Bye? x" = "Hi.Bye?" ∧
    trim_to_boundary "```x" = "```x" ∧ trimToBoundaryClaim "```x" = "" ∧
    ("Hi." : String) ≠ "Hi.Bye?" ∧ ("```x" : String) ≠ "" := by
  decide

/-- C7 (amended): `trim_to_boundary` right-trims and then cuts at the first
fenced-code marker, else at the first blank-line break (a cut that would
empty the text returns it unchanged); else it returns text ending in a
trailing run of sentence punctuation (with one optional closer) unchanged;
else it cuts after the right-most occurrence of the first character among
`'.'`, `'?'`, `'!'`, `'。'`, `'！'`, `'？'` (in that order) that occurs;
else it returns the text unchanged.  In particular
`trim_to_boundary("The cat sat. The dog ra") = "The cat sat."`. -/
theorem c7_trim_to_boundary_amended :
    (∀ s : String, trim_to_boundary s = trimToBoundaryAmended s) ∧
    trim_to_boundary "The cat sat. The dog ra" = "The cat sat." :=
  ⟨fun s => congrArg String.mk (trimL_eq_amended s.data), by decide⟩

/-! ## Claim C8: idempotence of `trim_to_boundary` -/

/-- C8 (counterexample): `trim_to_boundary` is not idempotent — a blank-line
cut can expose a sentence cut that only the second application performs. -/
theorem c8_trim_not_idempotent :
    trim_to_boundary "a. b\n\nc" = "a. b" ∧
    trim_to_boundary (trim_to_boundary "a. b\n\nc") = "a." ∧
    ("a." : String) ≠ "a. b" := by
  decide

/-- C8 (amended): `trim_to_boundary` is idempotent on every input that
contains no fenced-code marker and no blank-line break; a marker cut can
expose a new boundary to a second application. -/
theorem c8_trim_idempotent_no_marker (s : String)
    (hf : containsSub fenceMarker s.data = false)
    (hb : containsSub blankMarker s.data = false) :
    trim_to_boundary (trim_to_boundary s) = trim_to_boundary s :=
  congrArg String.mk (trimL_trimL s.data hf hb)

/-- C8 witness: the amended idempotence applied to a concrete marker-free
string. -/
theorem c8_trim_idempotent_no_marker_witness :
    trim_to_boundary (trim_to_boundary "The cat sat. The dog ra") =
      trim_to_boundary "The cat sat. The dog ra" :=
  c8_trim_idempotent_no_marker "The cat sat. The dog ra" (by decide) (by decide)

/-! ## Claim C6: `apply_length_cutoff_finisher` -/

theorem strVal?_eq_some_iff (o : Option PyVal) (s : String) :
    strVal? o = some s ↔ o = some (vStr s) := by
  rcases o with _ | v
  · simp [strVal?]
  · cases v <;> simp [strVal?]

theorem dictVal?_eq_some_iff (o : Option PyVal) (m : List (String × PyVal)) :
    dictVal? o = some m ↔ o = some (vDict m) := by
  rcases o with _ | v
  · simp [dictVal?]
  · cases v <;> simp [dictVal?]

/-- Claim C6's per-field rule as stated: append `" ..."` to the
`trim_to_boundary` result when it differs from the original **or** does not
already end in terminal punctuation (no non-emptiness guard). -/
def c6FieldClaim (s : String) : String :=
  let t := trim_to_boundary s
  if t ≠ s ∨ endsWithAny t END_PUNCT = false then t ++ " ..." else t

/-- Amended per-field rule: append `" ..."` when the trim result differs
from the original, or is non-empty and does not already end in terminal
punctuation. -/
def c6FieldAmended (s : String) : String :=
  let t := trim_to_boundary s
  if t ≠ s ∨ (t ≠ "" ∧ endsWithAny t END_PUNCT = false) then t ++ " ..." else t

theorem tidyStr_eq_c6FieldAmended (s : String) : tidyStr s = c6FieldAmended s := by
  unfold tidyStr c6FieldAmended
  by_cases h1 : trim_to_boundary s = s
  · by_cases h2 : trim_to_boundary s = ""
    · simp [h1, h2]
    · by_cases h3 : endsWithAny (trim_to_boundary s) END_PUNCT <;> simp [h1, h2, h3]
  · simp [h1]

/-- C6 (counterexample): on `{"response": "", "done_reason": "length"}` the
claim's rule appends the marker (the empty trim result equals the original
and does not end in terminal punctuation), but the code guards on
non-emptiness and leaves the payload unchanged, returning `False`. -/
theorem c6_length_cutoff_counterexample :
    apply_length_cutoff_finisher [("response", vStr ""), ("done_reason", vStr "length")] =
      ([("response", vStr ""), ("done_reason", vStr "length")], false) ∧
    c6FieldClaim "" = " ..." ∧ (" ..." : String) ≠ "" :=
  ⟨rfl, by decide, by decide⟩

theorem string_ne_of_msg_content_set (m : List (String × PyVal)) (s t : String)
    (hc : dGet? m "content" = some (vStr s)) (hne : t ≠ s) :
    vDict (dSet m "content" (vStr t)) ≠ vDict m := by
  intro h
  have h1 : dSet m "content" (vStr t) = m := by injection h
  have h2 : dGet? (dSet m "content" (vStr t)) "content" = some (vStr t) :=
    dGet_dSet_self m "content" (vStr t)
  rw [h1, hc] at h2
  injection h2 with h3
  injection h3 with h4
  exact hne h4.symm

theorem lengthRespPhase_cases (payload : Dict) :
    (lengthRespPhase payload = (payload, false) ∧
      ∀ s, dGet? payload "response" = some (vStr s) → tidyStr s = s) ∨
    (∃ s, dGet? payload "response" = some (vStr s) ∧ tidyStr s ≠ s ∧
      lengthRespPhase payload = (dSet payload "response" (vStr (tidyStr s)), true)) := by
  rcases hsv : strVal? (dGet? payload "response") with _ | s
  · left
    refine ⟨by simp [lengthRespPhase, hsv], ?_⟩
    intro s hs
    rw [(strVal?_eq_some_iff _ s).mpr hs] at hsv
    exact Option.noConfusion hsv
  · have hrs := (strVal?_eq_some_iff _ s).mp hsv
    by_cases hts : tidyStr s = s
    · left
      refine ⟨by simp [lengthRespPhase, hsv, hts], ?_⟩
      intro s0 hs0
      have hs0s : s0 = s := by
        rw [hrs] at hs0
        injection hs0 with h1
        injection h1 with h2
        exact h2.symm
      rw [hs0s, hts]
    · right
      exact ⟨s, hrs, hts, by simp [lengthRespPhase, hsv, hts]⟩

theorem lengthMsgPhase_cases (st : Dict × Bool) :
    (lengthMsgPhase st = st ∧
      ∀ m s, dGet? st.1 "message" = some (vDict m) → dGet? m "content" = some (vStr s) →
        tidyStr s = s) ∨
    (∃ m s, dGet? st.1 "message" = some (vDict m) ∧ dGet? m "content" = some (vStr s) ∧
      tidyStr s ≠ s ∧
      lengthMsgPhase st = (dSet st.1 "message" (vDict (dSet m "content" (vStr (tidyStr s)))),
        true)) := by
  rcases hmd : dictVal? (dGet? st.1 "message") with _ | m
  · left
    refine ⟨by simp [lengthMsgPhase, hmd], ?_⟩
    intro m s hm _
    rw [(dictVal?_eq_some_iff _ m).mpr hm] at hmd
    exact Option.noConfusion hmd
  · have hm' := (dictVal?_eq_some_iff _ m).mp hmd
    rcases hct : strVal? (dGet? m "content") with _ | s2
    · left
      refine ⟨by simp [lengthMsgPhase, hmd, hct], ?_⟩
      intro m0 s hm0 hc0
      have hm0m : m0 = m := by
        rw [hm'] at hm0
        injection hm0 with h1
        injection h1 with h2
        exact h2.symm
      subst hm0m
      rw [(strVal?_eq_some_iff _ s).mpr hc0] at hct
      exact Option.noConfusion hct
    · have hc2 := (strVal?_eq_some_iff _ s2).mp hct
      by_cases hts2 : tidyStr s2 = s2
      · left
        refine ⟨by simp [lengthMsgPhase, hmd, hct, hts2], ?_⟩
        intro m0 s hm0 hc0
        have hm0m : m0 = m := by
          rw [hm'] at hm0
          injection hm0 with h1
          injection h1 with h2
          exact h2.symm
        subst hm0m
        have hss2 : s = s2 := by
          rw [hc2] at hc0
          injection hc0 with h1
          injection h1 with h2
          exact h2.symm
        rw [hss2, hts2]
      · right
        exact ⟨m, s2, hm', hc2, hts2, by simp [lengthMsgPhase, hmd, hct, hts2]⟩

/-- C6 (amended): `apply_length_cutoff_finisher` leaves the payload
unchanged and reports no change whenever `done_reason` is not `"length"`;
when it is `"length"`, each present string-valued textual field (top-level
`response`, assistant message `content`) is replaced by its
`trim_to_boundary` result with a literal `" ..."` appended when that result
differs from the original or is non-empty and not already ending in
terminal punctuation; and the function returns `True` exactly when some
field changed. -/
theorem c6_length_cutoff_amended (payload : Dict) :
    (reasonIsLength payload = false → apply_length_cutoff_finisher payload = (payload, false)) ∧
    (reasonIsLength payload = true →
      (∀ s, dGet? payload "response" = some (vStr s) →
        dGet? (apply_length_cutoff_finisher payload).1 "response" =
          some (vStr (c6FieldAmended s))) ∧
      (∀ m s, dGet? payload "message" = some (vDict m) → dGet? m "content" = some (vStr s) →
        ∃ m', dGet? (apply_length_cutoff_finisher payload).1 "message" = some (vDict m') ∧
          dGet? m' "content" = some (vStr (c6FieldAmended s))) ∧
      ((apply_length_cutoff_finisher payload).2 = true ↔
        (apply_length_cutoff_finisher payload).1 ≠ payload)) := by
  have hmr : ("message" : String) ≠ "response" := by decide
  have hrm : ("response" : String) ≠ "message" := by decide
  constructor
  · intro hR
    simp [apply_length_cutoff_finisher, hR]
  · intro hR
    have hres : apply_length_cutoff_finisher payload =
        lengthMsgPhase (lengthRespPhase payload) := by
      simp [apply_length_cutoff_finisher, hR]
    rw [hres]
    rcases lengthRespPhase_cases payload with ⟨hr1, hr2⟩ | ⟨s, hrs, hts, hr1⟩
    · -- response untouched
      rw [hr1]
      rcases lengthMsgPhase_cases (payload, false) with ⟨hm1, hm2⟩ | ⟨m, s2, hmm, hcc, hts2, hm1⟩
      · rw [hm1]
        refine ⟨?_, ?_, ?_⟩
        · intro s hs
          rw [hs, ← tidyStr_eq_c6FieldAmended, hr2 s hs]
        · intro m s hm hc
          exact ⟨m, hm, by rw [hc, ← tidyStr_eq_c6FieldAmended, hm2 m s hm hc]⟩
        · simp
      · rw [hm1]
        simp only at hmm hcc ⊢
        refine ⟨?_, ?_, ?_⟩
        · intro s hs
          rw [dGet_dSet_ne payload "message" "response" _ hrm, hs,
            ← tidyStr_eq_c6FieldAmended, hr2 s hs]
        · intro m0 s0 hm0 hc0
          have hm0m : m0 = m := by
            rw [hmm] at hm0
            injection hm0 with h1
            injection h1 with h2
            exact h2.symm
          subst hm0m
          have hss2 : s0 = s2 := by
            rw [hcc] at hc0
            injection hc0 with h1
            injection h1 with h2
            exact h2.symm
          subst hss2
          refine ⟨dSet m0 "content" (vStr (tidyStr s0)), dGet_dSet_self payload "message" _, ?_⟩
          rw [dGet_dSet_self m0 "content" _, ← tidyStr_eq_c6FieldAmended]
        · simp only [true_iff]
          intro hEq
          have h1 := congrArg (fun q => dGet? q "message") hEq
          simp only [dGet_dSet_self] at h1
          rw [hmm] at h1
          have h2 : vDict (dSet m "content" (vStr (tidyStr s2))) = vDict m := by
            injection h1
          exact string_ne_of_msg_content_set m s2 (tidyStr s2) hcc hts2 h2
    · -- response changed
      rw [hr1]
      have hkeep : dGet? (dSet payload "response" (vStr (tidyStr s))) "message" =
          dGet? payload "message" := dGet_dSet_ne payload "response" "message" _ hmr
      have hrespset : dGet? (dSet payload "response" (vStr (tidyStr s))) "response" =
          some (vStr (tidyStr s)) := dGet_dSet_self payload "response" _
      have hne_payload : ∀ q : Dict,
          dGet? q "response" = some (vStr (tidyStr s)) → q ≠ payload := by
        intro q hq hEq
        rw [hEq, hrs] at hq
        injection hq with h1
        injection h1 with h2
        exact hts h2.symm
      rcases lengthMsgPhase_cases (dSet payload "response" (vStr (tidyStr s)), true) with
        ⟨hm1, hm2⟩ | ⟨m, s2, hmm, hcc, hts2, hm1⟩
      · rw [hm1]
        refine ⟨?_, ?_, ?_⟩
        · intro s0 hs0
          have hs0s : s0 = s := by
            rw [hrs] at hs0
            injection hs0 with h1
            injection h1 with h2
            exact h2.symm
          subst hs0s
          rw [← tidyStr_eq_c6FieldAmended]
          exact hrespset
        · intro m0 s0 hm0 hc0
          simp only at hm2
          have hmm0 : dGet? (dSet payload "response" (vStr (tidyStr s))) "message" =
              some (vDict m0) := by rw [hkeep, hm0]
          exact ⟨m0, hmm0, by rw [hc0, ← tidyStr_eq_c6FieldAmended, hm2 m0 s0 hmm0 hc0]⟩
        · simp only [true_iff]
          exact hne_payload _ hrespset
      · rw [hm1]
        simp only at hmm hcc ⊢
        have hrespset2 : dGet? (dSet (dSet payload "response" (vStr (tidyStr s))) "message"
            (vDict (dSet m "content" (vStr (tidyStr s2))))) "response" =
            some (vStr (tidyStr s)) := by
          rw [dGet_dSet_ne _ "message" "response" _ hrm]
          exact hrespset
        refine ⟨?_, ?_, ?_⟩
        · intro s0 hs0
          have hs0s : s0 = s := by
            rw [hrs] at hs0
            injection hs0 with h1
            injection h1 with h2
            exact h2.symm
          subst hs0s
          rw [← tidyStr_eq_c6FieldAmended]
          exact hrespset2
        · intro m0 s0 hm0 hc0
          have hm0m : m0 = m := by
            rw [hkeep, hm0] at hmm
            simpa using hmm
          subst hm0m
          have hss2 : s0 = s2 := by
            rw [hcc] at hc0
            injection hc0 with h1
            injection h1 with h2
            exact h2.symm
          subst hss2
          refine ⟨dSet m0 "content" (vStr (tidyStr s0)), dGet_dSet_self _ "message" _, ?_⟩
          rw [dGet_dSet_self m0 "content" _, ← tidyStr_eq_c6FieldAmended]
        · simp only [true_iff]
          exact hne_payload _ hrespset2

/-- The payload of claim C6's worked example. -/
def c6ExamplePayload : Dict :=
  [("response", vStr "One. Two. Thr"), ("done_reason", vStr "length")]

/-- C6 witness: the amended theorem applied to the claim's worked example,
whose `response` becomes `"One. Two. ..."` with `True` returned. -/
theorem c6_length_cutoff_amended_witness :
    reasonIsLength c6ExamplePayload = true ∧
    dGet? (apply_length_cutoff_finisher c6ExamplePayload).1 "response" =
      some (vStr (c6FieldAmended "One. Two. Thr")) ∧
    ((apply_length_cutoff_finisher c6ExamplePayload).2 = true ↔
      (apply_length_cutoff_finisher c6ExamplePayload).1 ≠ c6ExamplePayload) :=
  ⟨rfl,
   ((c6_length_cutoff_amended c6ExamplePayload).2 rfl).1 "One. Two. Thr" rfl,
   ((c6_length_cutoff_amended c6ExamplePayload).2 rfl).2.2⟩

/-! ## Claim C4: the Trim Planner -/

/-- Claim C4's tail-allowance formula as stated: `min(tail, client − base)`
when the client requested more than the base, the full configured tail
tokens when the client set no limit, else 0 — with no condition on the
base being bounded. -/
def c4ClaimTail (tailTokens clientLimit basePredict : Int) : Int :=
  if clientLimit = INF then tailTokens
  else if clientLimit > basePredict then min tailTokens (clientLimit - basePredict)
  else 0

/-- A concrete configuration with a positive tail-token allowance. -/
def cfgC4 : Cfg :=
  { SHORT_MAX := 12, NORMAL_MAX := 60, CAP_SHORT := [], CAP_NORMAL := [], CAP_DEEP := [],
    TAIL_TOKENS := 10, CHARS_PER_TOKEN := 4, SHORT_SENTENCES := 2,
    MODEL_DOWNGRADE := false, FALLBACK_7B := "qwen7b", DEFAULT_SYSTEM_SHORT := "Be brief." }

/-- C4 (counterexample): with tail tokens configured to 10, an unbounded
base output limit and no client limit, the plan's tail allowance is 0 —
the code additionally requires `base_predict < INF` — while the claim's
"full configured tail tokens when the client set no limit at all"
prescribes 10. -/
theorem c4_trim_planner_counterexample :
    (compute_trim_config cfgC4 [] [("_mode", vStr "short")] false [] INF).map
      TrimCfg.tail_tokens = some 0 ∧
    c4ClaimTail cfgC4.TAIL_TOKENS (safe_int (dGetN ([] : Dict) "num_predict") INF) INF = 10 ∧
    (0 : Int) ≠ 10 :=
  ⟨rfl, rfl, by decide⟩

theorem should_trim_short_iff (cfg : Cfg) (body : Dict) (chosen : Dict) (ws : Bool) :
    should_trim_short cfg body chosen ws = true ↔
      (ws = false ∧ 0 < cfg.SHORT_SENTENCES ∧ modeIsShort chosen = true ∧
        has_rag body = false) := by
  unfold should_trim_short
  cases ws
  · by_cases h2 : cfg.SHORT_SENTENCES ≤ 0
    · simp only [Bool.false_eq_true, if_false, if_pos h2, false_iff]
      intro h
      omega
    · by_cases h3 : modeIsShort chosen = true
      · cases hr : has_rag body
        · simp [h2, h3, hr]
          omega
        · simp [h2, h3, hr]
      · simp [h2, h3]
  · simp

theorem apply_trim_feedback_set (opts : Dict) (c : TrimCfg) (b : Int)
    (hb : c.base_tokens = some b) (ht : c.tail_tokens ≠ 0) (hb0 : b ≠ 0) (hblt : b < INF) :
    apply_trim_feedback opts (some c) = dSet opts "num_predict" (vInt (b + c.tail_tokens)) := by
  simp only [apply_trim_feedback, hb]
  rw [if_pos (by simp [ht, hb0, hblt])]

/-- C4 (amended): the Trim Planner returns a plan iff the response is
non-streaming, the configured sentence limit is positive, the chosen
preset's mode is "short" and the request has no retrieval markers; in the
returned plan the tail allowance follows the claim's formula **when the
base output limit is bounded** and is 0 when it is unbounded (assuming a
non-negative tail-token configuration); and when the plan carries a
non-zero allowance and a non-zero (bounded) base, the dispatched request's
output limit becomes base plus allowance. -/
theorem c4_trim_planner_amended (cfg : Cfg) (body : Dict) (chosen : Dict) (ws : Bool)
    (copts : Dict) (base : Int) (opts : Dict) (hT : 0 ≤ cfg.TAIL_TOKENS) :
    ((compute_trim_config cfg body chosen ws copts base).isSome = true ↔
      (ws = false ∧ 0 < cfg.SHORT_SENTENCES ∧ modeIsShort chosen = true ∧
        has_rag body = false)) ∧
    (∀ c, compute_trim_config cfg body chosen ws copts base = some c →
      c.tail_tokens =
        (if base < INF then
          c4ClaimTail cfg.TAIL_TOKENS (safe_int (dGetN copts "num_predict") INF) base
        else 0)) ∧
    (∀ c, compute_trim_config cfg body chosen ws copts base = some c →
      c.tail_tokens ≠ 0 → ∀ b, c.base_tokens = some b → b ≠ 0 →
        dGet? (apply_trim_feedback opts (some c)) "num_predict" =
          some (vInt (b + c.tail_tokens))) := by
  by_cases hs : should_trim_short cfg body chosen ws = true
  · refine ⟨?_, ?_, ?_⟩
    · rw [show (compute_trim_config cfg body chosen ws copts base).isSome = true by
        simp [compute_trim_config, hs]]
      simp only [true_iff]
      exact (should_trim_short_iff cfg body chosen ws).mp hs
    · intro c hc
      simp only [compute_trim_config, hs, Bool.not_true, Bool.false_eq_true, if_false,
        Option.some.injEq] at hc
      subst hc
      simp only [c4ClaimTail]
      by_cases hb1 : base < INF
      · rw [if_pos hb1]
        by_cases ht1 : cfg.TAIL_TOKENS > 0
        · have hg : (cfg.TAIL_TOKENS > 0 && base < INF) = true := by simp [ht1, hb1]
          rw [if_pos hg]
        · have ht0 : cfg.TAIL_TOKENS = 0 := by omega
          have hg : (cfg.TAIL_TOKENS > 0 && base < INF) = false := by simp [ht1]
          rw [if_neg (by rw [hg]; exact fun h => Bool.noConfusion h), ht0]
          by_cases hLI : safe_int (dGetN copts "num_predict") INF = INF
          · rw [if_pos hLI]
          · rw [if_neg hLI]
            by_cases hLb : safe_int (dGetN copts "num_predict") INF > base
            · rw [if_pos hLb]
              have hmin : min (0 : Int) (safe_int (dGetN copts "num_predict") INF - base)
                  = 0 := by
                rw [min_def]
                split_ifs <;> omega
              rw [hmin]
            · rw [if_neg hLb]
      · rw [if_neg hb1]
        have hg : (cfg.TAIL_TOKENS > 0 && base < INF) = false := by simp [hb1]
        rw [if_neg (by rw [hg]; exact fun h => Bool.noConfusion h)]
    · intro c hc htail b hb hbne
      simp only [compute_trim_config, hs, Bool.not_true, Bool.false_eq_true, if_false,
        Option.some.injEq] at hc
      subst hc
      simp only at hb htail
      have hblt : b < INF := by
        by_cases hge : base ≥ INF
        · rw [if_pos hge] at hb
          exact Option.noConfusion hb
        · rw [if_neg hge] at hb
          injection hb with hb1
          omega
      rw [apply_trim_feedback_set opts _ b hb htail hbne hblt]
      exact dGet_dSet_self opts "num_predict" _
  · have hnone : compute_trim_config cfg body chosen ws copts base = none := by
      simp [compute_trim_config, hs]
    refine ⟨?_, ?_, ?_⟩
    · rw [hnone]
      simp only [Option.isSome_none, Bool.false_eq_true, false_iff]
      rw [← should_trim_short_iff cfg body chosen ws]
      exact fun h => hs h
    · intro c hc
      rw [hnone] at hc
      exact Option.noConfusion hc
    · intro c hc
      rw [hnone] at hc
      exact Option.noConfusion hc

/-- C4 witness: the amended theorem applied to a concrete short-mode
non-streaming request with a bounded base of 160. -/
theorem c4_trim_planner_amended_witness :
    0 ≤ cfgC4.TAIL_TOKENS ∧
    ((compute_trim_config cfgC4 [] [("_mode", vStr "short")] false [] 160).isSome = true ↔
      (false = false ∧ 0 < cfgC4.SHORT_SENTENCES ∧
        modeIsShort [("_mode", vStr "short")] = true ∧ has_rag [] = false)) :=
  ⟨by decide,
   (c4_trim_planner_amended cfgC4 [] [("_mode", vStr "short")] false [] 160 [] (by decide)).1⟩

/-! ## Claim C5: the Model Downgrade Policy -/

/-- A concrete configuration with the downgrade feature enabled. -/
def cfgC5 : Cfg :=
  { SHORT_MAX := 12, NORMAL_MAX := 60, CAP_SHORT := [], CAP_NORMAL := [], CAP_DEEP := [],
    TAIL_TOKENS := 0, CHARS_PER_TOKEN := 4, SHORT_SENTENCES := 2,
    MODEL_DOWNGRADE := true, FALLBACK_7B := "qwen7b", DEFAULT_SYSTEM_SHORT := "Be brief." }

/-- The body of the C5 counterexample: a "14b" model with a client limit
of 100 requested through `options`. -/
def bodyC5 : Dict :=
  [("model", vStr "big-14b"), ("options", vDict [("num_predict", vInt 100)])]

/-- The chosen preset of the C5 counterexample: output limit 300. -/
def chosenC5 : Dict :=
  [("num_predict", vInt 300), ("_mode", vStr "short")]

/-- C5 (counterexample): the policy tests the **chosen preset's** output
limit, not the effective one.  Here the effective limit is
`min(100, 300) = 100 ≤ 200`, the feature is enabled, there are no
retrieval markers and the model name contains "14b", so the claim
prescribes a downgrade — but the code compares the preset limit 300 > 200
and leaves the request unchanged. -/
theorem c5_downgrade_counterexample :
    cfgC5.MODEL_DOWNGRADE = true ∧
    extract_client_options bodyC5 = some [("num_predict", vInt 100)] ∧
    dGet? (clamp_options chosenC5 [("num_predict", vInt 100)]) "num_predict" =
      some (vInt 100) ∧
    ((100 : Int) ≤ 200) ∧
    has_rag bodyC5 = false ∧
    containsSub "14b".data (lowerStr "big-14b").data = true ∧
    maybe_downgrade_model cfgC5 bodyC5 chosenC5 = some bodyC5 ∧
    dGet? bodyC5 "model" = some (vStr "big-14b") ∧
    vStr "big-14b" ≠ vStr cfgC5.FALLBACK_7B := by
  refine ⟨rfl, rfl, rfl, by decide, rfl, rfl, rfl, rfl, ?_⟩
  intro h
  injection h with h1
  exact absurd h1 (by decide)

/-- C5 (amended): given a string-valued (or absent/falsy) model field, the
Model Downgrade Policy replaces the model id with the configured fallback
exactly when the feature is enabled, the **chosen preset's** output limit
(unbounded when unset or malformed) is at most 200, the request has no
retrieval markers, and the model name contains "14b" as a case-insensitive
substring; in every other case the request is left unchanged. -/
theorem c5_downgrade_amended (cfg : Cfg) (body : Dict) (chosen : Dict)
    (mstr : String) (hm : modelStrOf body = some mstr) :
    ∃ r, maybe_downgrade_model cfg body chosen = some r ∧
      ((cfg.MODEL_DOWNGRADE = true ∧ safe_int (dGetN chosen "num_predict") INF ≤ 200 ∧
        has_rag body = false ∧ containsSub "14b".data (lowerStr mstr).data = true) →
        r = dSet body "model" (vStr cfg.FALLBACK_7B)) ∧
      (¬(cfg.MODEL_DOWNGRADE = true ∧ safe_int (dGetN chosen "num_predict") INF ≤ 200 ∧
        has_rag body = false ∧ containsSub "14b".data (lowerStr mstr).data = true) →
        r = body) := by
  cases hb : (cfg.MODEL_DOWNGRADE && (safe_int (dGetN chosen "num_predict") INF ≤ 200) &&
      !has_rag body && containsSub "14b".data (lowerStr mstr).data) with
  | true =>
    have hP : cfg.MODEL_DOWNGRADE = true ∧ safe_int (dGetN chosen "num_predict") INF ≤ 200 ∧
        has_rag body = false ∧ containsSub "14b".data (lowerStr mstr).data = true := by
      simp only [Bool.and_eq_true, decide_eq_true_eq, Bool.not_eq_true'] at hb
      tauto
    refine ⟨dSet body "model" (vStr cfg.FALLBACK_7B), ?_, fun _ => rfl, fun hn => absurd hP hn⟩
    simp only [maybe_downgrade_model, hm]
    rw [if_pos hb]
  | false =>
    refine ⟨body, ?_, fun hP => ?_, fun _ => rfl⟩
    · simp only [maybe_downgrade_model, hm]
      rw [if_neg (by rw [hb]; exact fun h => Bool.noConfusion h)]
    · obtain ⟨h1, h2, h3, h4⟩ := hP
      rw [show (cfg.MODEL_DOWNGRADE && (safe_int (dGetN chosen "num_predict") INF ≤ 200) &&
        !has_rag body && containsSub "14b".data (lowerStr mstr).data) = true by
          simp [h1, h2, h3, h4]] at hb
      exact Bool.noConfusion hb

/-- C5 witness: the amended theorem applied to a concrete enabled, short,
marker-free request with a "14b" model and a preset limit of 160. -/
theorem c5_downgrade_amended_witness :
    ∃ r, maybe_downgrade_model cfgC5 [("model", vStr "big-14b")]
        [("num_predict", vInt 160), ("_mode", vStr "short")] = some r ∧
      ((cfgC5.MODEL_DOWNGRADE = true ∧
        safe_int (dGetN [("num_predict", vInt 160), ("_mode", vStr "short")] "num_predict")
          INF ≤ 200 ∧
        has_rag [("model", vStr "big-14b")] = false ∧
        containsSub "14b".data (lowerStr "big-14b").data = true) →
        r = dSet [("model", vStr "big-14b")] "model" (vStr cfgC5.FALLBACK_7B)) ∧
      (¬(cfgC5.MODEL_DOWNGRADE = true ∧
        safe_int (dGetN [("num_predict", vInt 160), ("_mode", vStr "short")] "num_predict")
          INF ≤ 200 ∧
        has_rag [("model", vStr "big-14b")] = false ∧
        containsSub "14b".data (lowerStr "big-14b").data = true) →
        r = [("model", vStr "big-14b")]) :=
  c5_downgrade_amended cfgC5 [("model", vStr "big-14b")]
    [("num_predict", vInt 160), ("_mode", vStr "short")] "big-14b" rfl

/-! ## Claim C2: the Option Normalizer invariant -/

theorem clampNumKey_get_ne (chosen d : Dict) (k k' : String) (h : k' ≠ k) :
    dGet? (clampNumKey chosen d k) k' = dGet? d k' := by
  unfold clampNumKey
  by_cases hm : dMem chosen k = true <;> simp [hm, dGet_dSet_ne d k k' _ h]

theorem clampNumKey_mem_ne (chosen d : Dict) (k k' : String) (h : k' ≠ k) :
    dMem (clampNumKey chosen d k) k' = dMem d k' := by
  simp [dMem, clampNumKey_get_ne chosen d k k' h]

theorem clampNumKey_not_mem (chosen d : Dict) (k : String) (h : dMem chosen k = false) :
    clampNumKey chosen d k = d := by
  unfold clampNumKey
  rw [if_neg (by simp [h])]

theorem clampNumKey_preset_bound (chosen d : Dict) (k : String) (p : Int)
    (hp : dGet? chosen k = some (vInt p)) :
    ∃ w : Int, dGet? (clampNumKey chosen d k) k = some (vInt w) ∧ w ≤ p := by
  have hm : dMem chosen k = true := by simp [dMem, hp]
  have hsp : safe_int (dGetN chosen k) INF = p := by
    simp [safe_int, pyToInt?, dGetN, hp]
  unfold clampNumKey
  rw [if_pos hm, dGet_dSet_self, hsp]
  exact ⟨_, rfl, min_le_right _ _⟩

theorem clampNumKey_client_bound (chosen d : Dict) (k : String) (c : Int)
    (hc : dGet? d k = some (vInt c)) :
    ∃ w : Int, dGet? (clampNumKey chosen d k) k = some (vInt w) ∧ w ≤ c := by
  by_cases hm : dMem chosen k = true
  · have hsc : safe_int (dGetN d k) INF = c := by
      simp [safe_int, pyToInt?, dGetN, hc]
    unfold clampNumKey
    rw [if_pos hm, dGet_dSet_self, hsc]
    exact ⟨_, rfl, min_le_left _ _⟩
  · unfold clampNumKey
    rw [if_neg hm]
    exact ⟨c, hc, le_refl c⟩

theorem clamp_options_get_after_np (chosen client : Dict) (k : String)
    (h1 : k ≠ "num_ctx") (h2 : k ≠ "temperature") (h3 : k ≠ "repeat_penalty")
    (h4 : k ≠ "stop") :
    dGet? (clamp_options chosen client) k =
      dGet? (clampNumKey chosen client "num_predict") k := by
  simp only [clamp_options]
  split_ifs with hstop
  · rw [dGet_dSet_ne _ "stop" k _ h4, dGet_setdefault_ne _ "repeat_penalty" k _ h3,
      dGet_setdefault_ne _ "temperature" k _ h2, clampNumKey_get_ne _ _ "num_ctx" k h1]
  · rw [dGet_setdefault_ne _ "repeat_penalty" k _ h3,
      dGet_setdefault_ne _ "temperature" k _ h2, clampNumKey_get_ne _ _ "num_ctx" k h1]

theorem clamp_options_get_nc (chosen client : Dict) :
    dGet? (clamp_options chosen client) "num_ctx" =
      dGet? (clampNumKey chosen (clampNumKey chosen client "num_predict") "num_ctx")
        "num_ctx" := by
  simp only [clamp_options]
  split_ifs with hstop
  · rw [dGet_dSet_ne _ "stop" "num_ctx" _ (by decide),
      dGet_setdefault_ne _ "repeat_penalty" "num_ctx" _ (by decide),
      dGet_setdefault_ne _ "temperature" "num_ctx" _ (by decide)]
  · rw [dGet_setdefault_ne _ "repeat_penalty" "num_ctx" _ (by decide),
      dGet_setdefault_ne _ "temperature" "num_ctx" _ (by decide)]

/-- C2: for every chosen preset and every client options map (malformed
values included), the clamped `num_predict` and `num_ctx` never exceed the
preset's integer values when the preset sets them, the clamped
`num_predict` never exceeds an integer client request, and every
client-supplied key the preset does not set passes through unchanged. -/
theorem c2_clamp_invariant (chosen client : Dict) :
    (∀ p : Int, dGet? chosen "num_predict" = some (vInt p) →
      ∃ w : Int, dGet? (clamp_options chosen client) "num_predict" = some (vInt w) ∧ w ≤ p) ∧
    (∀ p : Int, dGet? chosen "num_ctx" = some (vInt p) →
      ∃ w : Int, dGet? (clamp_options chosen client) "num_ctx" = some (vInt w) ∧ w ≤ p) ∧
    (∀ c : Int, dGet? client "num_predict" = some (vInt c) →
      ∃ w : Int, dGet? (clamp_options chosen client) "num_predict" = some (vInt w) ∧ w ≤ c) ∧
    (∀ k : String, dMem client k = true → dMem chosen k = false →
      dGet? (clamp_options chosen client) k = dGet? client k) := by
  refine ⟨?_, ?_, ?_, ?_⟩
  · intro p hp
    obtain ⟨w, hw, hwp⟩ := clampNumKey_preset_bound chosen client "num_predict" p hp
    exact ⟨w, by
      rw [clamp_options_get_after_np chosen client "num_predict" (by decide) (by decide)
        (by decide) (by decide)]
      exact hw, hwp⟩
  · intro p hp
    obtain ⟨w, hw, hwp⟩ :=
      clampNumKey_preset_bound chosen (clampNumKey chosen client "num_predict") "num_ctx" p hp
    exact ⟨w, by rw [clamp_options_get_nc chosen client]; exact hw, hwp⟩
  · intro c hc
    obtain ⟨w, hw, hwp⟩ := clampNumKey_client_bound chosen client "num_predict" c hc
    exact ⟨w, by
      rw [clamp_options_get_after_np chosen client "num_predict" (by decide) (by decide)
        (by decide) (by decide)]
      exact hw, hwp⟩
  · intro k hkc hkch
    by_cases hnp : k = "num_predict"
    · subst hnp
      rw [clamp_options_get_after_np chosen client "num_predict" (by decide) (by decide)
        (by decide) (by decide), clampNumKey_not_mem chosen client "num_predict" hkch]
    · by_cases hnc : k = "num_ctx"
      · subst hnc
        rw [clamp_options_get_nc chosen client,
          clampNumKey_not_mem chosen _ "num_ctx" hkch,
          clampNumKey_get_ne chosen client "num_predict" "num_ctx" (by decide)]
      · by_cases htmp : k = "temperature"
        · subst htmp
          simp only [clamp_options]
          have hmem2 : dMem (clampNumKey chosen (clampNumKey chosen client "num_predict")
              "num_ctx") "temperature" = true := by
            rw [clampNumKey_mem_ne _ _ "num_ctx" _ (by decide),
              clampNumKey_mem_ne _ _ "num_predict" _ (by decide)]
            exact hkc
          rw [dGet_setdefault_mem _ _ _ hmem2]
          split_ifs with hstop
          · rw [dGet_dSet_ne _ "stop" "temperature" _ (by decide),
              dGet_setdefault_ne _ "repeat_penalty" "temperature" _ (by decide),
              clampNumKey_get_ne _ _ "num_ctx" _ (by decide),
              clampNumKey_get_ne _ _ "num_predict" _ (by decide)]
          · rw [dGet_setdefault_ne _ "repeat_penalty" "temperature" _ (by decide),
              clampNumKey_get_ne _ _ "num_ctx" _ (by decide),
              clampNumKey_get_ne _ _ "num_predict" _ (by decide)]
        · by_cases hrp : k = "repeat_penalty"
          · subst hrp
            simp only [clamp_options]
            have hmem3 : dMem (dSetdefault (clampNumKey chosen (clampNumKey chosen client
                "num_predict") "num_ctx") "temperature"
                ((dGet? chosen "temperature").getD (vRat (7 / 10)))) "repeat_penalty"
                = true := by
              rw [dMem_setdefault _ "temperature" _ _ (by decide),
                clampNumKey_mem_ne _ _ "num_ctx" _ (by decide),
                clampNumKey_mem_ne _ _ "num_predict" _ (by decide)]
              exact hkc
            rw [dGet_setdefault_mem _ _ _ hmem3]
            split_ifs with hstop
            · rw [dGet_dSet_ne _ "stop" "repeat_penalty" _ (by decide),
                dGet_setdefault_ne _ "temperature" "repeat_penalty" _ (by decide),
                clampNumKey_get_ne _ _ "num_ctx" _ (by decide),
                clampNumKey_get_ne _ _ "num_predict" _ (by decide)]
            · rw [dGet_setdefault_ne _ "temperature" "repeat_penalty" _ (by decide),
                clampNumKey_get_ne _ _ "num_ctx" _ (by decide),
                clampNumKey_get_ne _ _ "num_predict" _ (by decide)]
          · by_cases hst : k = "stop"
            · subst hst
              simp only [clamp_options]
              rw [if_neg (by simp [hkch])]
              rw [dGet_setdefault_ne _ "repeat_penalty" "stop" _ (by decide),
                dGet_setdefault_ne _ "temperature" "stop" _ (by decide),
                clampNumKey_get_ne _ _ "num_ctx" _ (by decide),
                clampNumKey_get_ne _ _ "num_predict" _ (by decide)]
            · rw [clamp_options_get_after_np chosen client k hnc htmp hrp hst,
                clampNumKey_get_ne _ _ "num_predict" _ hnp]

/-- The chosen preset of the C2 witness. -/
def c2Chosen : Dict := [("num_predict", vInt 160), ("num_ctx", vInt 1024)]

/-- The client options of the C2 witness (requests more than the preset
allows and carries an unconstrained custom key). -/
def c2Client : Dict := [("num_predict", vInt 500), ("foo", vStr "bar")]

/-- C2 witness: the invariant applied to a concrete preset/client pair. -/
theorem c2_clamp_invariant_witness :
    (∃ w : Int, dGet? (clamp_options c2Chosen c2Client) "num_predict" = some (vInt w) ∧
      w ≤ 160) ∧
    (∃ w : Int, dGet? (clamp_options c2Chosen c2Client) "num_predict" = some (vInt w) ∧
      w ≤ 500) ∧
    dGet? (clamp_options c2Chosen c2Client) "foo" = dGet? c2Client "foo" :=
  ⟨(c2_clamp_invariant c2Chosen c2Client).1 160 rfl,
   (c2_clamp_invariant c2Chosen c2Client).2.2.1 500 rfl,
   (c2_clamp_invariant c2Chosen c2Client).2.2.2 "foo" rfl rfl⟩

/-! ## Claim C3: the Prompt Classifier -/

/-- The classifier tiers. -/
inductive Tier where
  | short : Tier
  | normal : Tier
  | deep : Tier

/-- The mode string of a tier. -/
def tierName : Tier → String
  | .short => "short"
  | .normal => "normal"
  | .deep => "deep"

/-- One-step promotion of a tier (capped at deep). -/
def promoteTier : Tier → Tier
  | .short => .normal
  | .normal => .deep
  | .deep => .deep

/-- The tier selected by word count alone. -/
def baseTier (cfg : Cfg) (n : Nat) : Tier :=
  if (n : Int) ≤ cfg.SHORT_MAX then .short
  else if (n : Int) ≤ cfg.NORMAL_MAX then .normal
  else .deep

/-- Message entries must be dicts for Python's `msg.get(...)` calls not to
raise; a truthy non-string `prompt` would raise at `.strip()`. -/
def msgsAreDicts (body : Dict) : Bool :=
  match dGetN body "messages" with
  | vList l => l.all fun m => match m with | vDict _ => true | _ => false
  | _ => true

/-- The `prompt` field is a string or falsy. -/
def promptOk (body : Dict) : Bool :=
  match dGet? body "prompt" with
  | none => true
  | some (vStr _) => true
  | some v => !truthy v

/-- Request bodies on which the Python classifier does not raise. -/
def wfBody (body : Dict) : Bool :=
  promptOk body && msgsAreDicts body

/-- C3: retrieval markers force mode "deep"; without them the mode is the
word-count tier promoted exactly one step (capped at deep) when a detail
keyword matches, which in particular puts counts ≤ SHORT_MAX in
{short, normal}, counts in (SHORT_MAX, NORMAL_MAX] in {normal, deep}, and
counts above NORMAL_MAX at deep. -/
theorem c3_classifier (cfg : Cfg) (body : Dict) (hwf : wfBody body = true)
    (hmono : cfg.SHORT_MAX ≤ cfg.NORMAL_MAX) :
    (has_rag body = true → dGet? (choose_caps cfg body) "_mode" = some (vStr "deep")) ∧
    (has_rag body = false →
      dGet? (choose_caps cfg body) "_mode" =
        some (vStr (tierName
          (if wantsDetail (prompt_excerpt body) = true then
            promoteTier (baseTier cfg (wordCount (prompt_excerpt body)))
          else baseTier cfg (wordCount (prompt_excerpt body))))) ∧
      ((wordCount (prompt_excerpt body) : Int) ≤ cfg.SHORT_MAX →
        dGet? (choose_caps cfg body) "_mode" = some (vStr "short") ∨
        dGet? (choose_caps cfg body) "_mode" = some (vStr "normal")) ∧
      (cfg.SHORT_MAX < (wordCount (prompt_excerpt body) : Int) ∧
        (wordCount (prompt_excerpt body) : Int) ≤ cfg.NORMAL_MAX →
        dGet? (choose_caps cfg body) "_mode" = some (vStr "normal") ∨
        dGet? (choose_caps cfg body) "_mode" = some (vStr "deep")) ∧
      (cfg.NORMAL_MAX < (wordCount (prompt_excerpt body) : Int) →
        dGet? (choose_caps cfg body) "_mode" = some (vStr "deep"))) := by
  have hmode : ∀ (t : Dict) (m : String), dGet? (caps_with_mode t m) "_mode" = some (vStr m) :=
    fun t m => dGet_dSet_self t "_mode" (vStr m)
  constructor
  · intro hr
    simp only [choose_caps, hr, if_true]
    exact hmode _ _
  · intro hr
    have hcc : choose_caps cfg body =
        (if (wordCount (prompt_excerpt body) : Int) ≤ cfg.SHORT_MAX then
          (if wantsDetail (prompt_excerpt body) then caps_with_mode cfg.CAP_NORMAL "normal"
           else caps_with_mode cfg.CAP_SHORT "short")
         else if (wordCount (prompt_excerpt body) : Int) ≤ cfg.NORMAL_MAX then
          (if wantsDetail (prompt_excerpt body) then caps_with_mode cfg.CAP_DEEP "deep"
           else caps_with_mode cfg.CAP_NORMAL "normal")
         else caps_with_mode cfg.CAP_DEEP "deep") := by
      simp [choose_caps, hr]
    by_cases h1 : (wordCount (prompt_excerpt body) : Int) ≤ cfg.SHORT_MAX
    · cases hd : wantsDetail (prompt_excerpt body)
      · refine ⟨?_, ?_, ?_, ?_⟩
        · rw [hcc]
          simp [h1, hd, baseTier, tierName, hmode]
        · intro _
          left
          rw [hcc]
          simp [h1, hd, hmode]
        · intro h
          exact absurd h.1 (not_lt.mpr h1)
        · intro h
          exact absurd (le_trans h1 hmono) (not_le.mpr h)
      · refine ⟨?_, ?_, ?_, ?_⟩
        · rw [hcc]
          simp [h1, hd, baseTier, promoteTier, tierName, hmode]
        · intro _
          right
          rw [hcc]
          simp [h1, hd, hmode]
        · intro h
          exact absurd h.1 (not_lt.mpr h1)
        · intro h
          exact absurd (le_trans h1 hmono) (not_le.mpr h)
    · by_cases h2 : (wordCount (prompt_excerpt body) : Int) ≤ cfg.NORMAL_MAX
      · cases hd : wantsDetail (prompt_excerpt body)
        · refine ⟨?_, ?_, ?_, ?_⟩
          · rw [hcc]
            simp [h1, h2, hd, baseTier, tierName, hmode]
          · intro h
            exact absurd h (fun hh => h1 hh)
          · intro _
            left
            rw [hcc]
            simp [h1, h2, hd, hmode]
          · intro h
            exact absurd h2 (not_le.mpr h)
        · refine ⟨?_, ?_, ?_, ?_⟩
          · rw [hcc]
            simp [h1, h2, hd, baseTier, promoteTier, tierName, hmode]
          · intro h
            exact absurd h (fun hh => h1 hh)
          · intro _
            right
            rw [hcc]
            simp [h1, h2, hd, hmode]
          · intro h
            exact absurd h2 (not_le.mpr h)
      · refine ⟨?_, ?_, ?_, ?_⟩
        · rw [hcc]
          cases hd : wantsDetail (prompt_excerpt body) <;>
            simp [h1, h2, hd, baseTier, promoteTier, tierName, hmode]
        · intro h
          exact absurd h (fun hh => h1 hh)
        · intro h
          exact absurd h.2 (fun hh => h2 hh)
        · intro _
          rw [hcc]
          simp [h1, h2, hmode]

/-- The configuration of the C3 witness (the default thresholds 12/60). -/
def cfgC3 : Cfg :=
  { SHORT_MAX := 12, NORMAL_MAX := 60, CAP_SHORT := [("num_predict", vInt 160)],
    CAP_NORMAL := [("num_predict", vInt 384)], CAP_DEEP := [("num_predict", vInt 768)],
    TAIL_TOKENS := 0, CHARS_PER_TOKEN := 4, SHORT_SENTENCES := 2,
    MODEL_DOWNGRADE := true, FALLBACK_7B := "qwen7b", DEFAULT_SYSTEM_SHORT := "Be brief." }

/-- The body of the C3 witness: the spec's 6-word example prompt. -/
def c3Body : Dict := [("prompt", vStr "What is the capital of France?")]

/-- C3 witness: the classifier theorem applied to the concrete example
prompt, whose word count is within SHORT_MAX. -/
theorem c3_classifier_witness :
    wfBody c3Body = true ∧ cfgC3.SHORT_MAX ≤ cfgC3.NORMAL_MAX ∧
    (dGet? (choose_caps cfgC3 c3Body) "_mode" = some (vStr "short") ∨
     dGet? (choose_caps cfgC3 c3Body) "_mode" = some (vStr "normal")) :=
  ⟨by decide, by decide,
   ((c3_classifier cfgC3 c3Body (by decide) (by decide)).2 rfl).2.1 (by decide)⟩

/-! ## Claim C9: non-emptiness of the finishers -/

theorem orElseText_ne (c t : String) (ht : t ≠ "") : orElseText c t ≠ "" := by
  unfold orElseText
  split_ifs with h
  · exact h
  · exact ht

theorem trimL_ne_nil (s : List Char) (h : rstripL s ≠ []) : trimToBoundaryL s ≠ [] := by
  have hE : ¬((rstripL s).isEmpty = true) := by
    simpa [List.isEmpty_iff] using h
  simp only [trimToBoundaryL]
  rw [if_neg hE]
  cases hf : findSub fenceMarker (rstripL s) with
  | some i =>
    dsimp only
    split_ifs with hp
    · exact h
    · simpa [List.isEmpty_iff] using hp
  | none =>
    dsimp only
    cases hb : findSub blankMarker (rstripL s) with
    | some i =>
      dsimp only
      split_ifs with hp
      · exact h
      · simpa [List.isEmpty_iff] using hp
    | none =>
      dsimp only
      cases hbe : boundaryEnd? (rstripL s) with
      | some e =>
        dsimp only
        have he := boundaryEnd?_length _ _ hbe
        rw [he, List.take_length, rstripL_idem]
        exact h
      | none =>
        dsimp only
        cases hrf : rfindAnyIn trimPunctOrder (rstripL s) with
        | some i =>
          dsimp only
          obtain ⟨c, hcmem, hrc⟩ := rfindAnyIn_some_exists _ _ _ hrf
          rw [rfindChar_take c (rstripL s) i hrc,
            rstripL_append_not_ws _ _ (trimPunctOrder_not_ws c hcmem)]
          simp
        | none => exact h

/-- C9: `finish_short_text` never returns an empty string when the
stripped input is non-empty (and returns the input unchanged when the
stripped input is empty), and `trim_to_boundary` never returns an empty
string when its right-stripped input is non-empty. -/
theorem c9_finisher_nonempty (cfg : Cfg) (text : String) (config : TrimCfg) :
    (pyStrip text ≠ "" → finish_short_text cfg text config ≠ "") ∧
    (pyStrip text = "" → finish_short_text cfg text config = text) ∧
    (pyRstrip text ≠ "" → trim_to_boundary text ≠ "") := by
  refine ⟨?_, ?_, ?_⟩
  · intro h
    have htext : text ≠ "" := by
      intro he
      rw [he] at h
      exact h rfl
    simp only [finish_short_text]
    rw [if_neg h]
    exact orElseText_ne _ _ htext
  · intro h
    simp only [finish_short_text]
    rw [if_pos h]
  · intro h
    have hl : rstripL text.data ≠ [] := by
      intro hnil
      exact h (congrArg String.mk hnil)
    intro he
    exact trimL_ne_nil text.data hl (congrArg String.data he)

/-- The trim plan of the C9 witness. -/
def c9Plan : TrimCfg :=
  { sentences := 2, base_tokens := none, tail_tokens := 0, chars_per_token := 4 }

/-- C9 witness: the non-emptiness theorem applied to a concrete text and
plan. -/
theorem c9_finisher_nonempty_witness :
    pyStrip "One. Two. Three." ≠ "" ∧
    finish_short_text cfgC3 "One. Two. Three." c9Plan ≠ "" ∧
    pyRstrip "One. Two. Three." ≠ "" ∧
    trim_to_boundary "One. Two. Three." ≠ "" :=
  ⟨by decide,
   (c9_finisher_nonempty cfgC3 "One. Two. Three." c9Plan).1 (by decide),
   by decide,
   (c9_finisher_nonempty cfgC3 "One. Two. Three." c9Plan).2.2 (by decide)⟩

/-! ## Claim C10: the concise-system rewrite -/

/-- `isinstance(msgs, list) and msgs`. -/
def hasNonEmptyMessages (body : Dict) : Bool :=
  match dGetN body "messages" with
  | vList (_ :: _) => true
  | _ => false

/-- C10: for a short-mode preset without retrieval markers the body is
rewritten: a non-empty messages list whose first message is not a system
message gets the configured concise instruction prepended as a system
message; without a non-empty messages list the instruction and a blank
line are prefixed to the prompt; a leading system message, a non-short
mode, or retrieval markers leave the body unchanged. -/
theorem c10_inject_concise (cfg : Cfg) (body : Dict) (chosen : Dict)
    (hwf : msgsAreDicts body = true) :
    (modeIsShort chosen = false → inject_concise_system cfg body chosen = body) ∧
    (has_rag body = true → inject_concise_system cfg body chosen = body) ∧
    (modeIsShort chosen = true → has_rag body = false →
      (∀ m rest, dGetN body "messages" = vList (m :: rest) →
        (roleIsSystem m = true → inject_concise_system cfg body chosen = body) ∧
        (roleIsSystem m = false →
          dGet? (inject_concise_system cfg body chosen) "messages" =
            some (vList (vDict [("role", vStr "system"),
              ("content", vStr cfg.DEFAULT_SYSTEM_SHORT)] :: m :: rest)) ∧
          ∀ k, k ≠ "messages" →
            dGet? (inject_concise_system cfg body chosen) k = dGet? body k)) ∧
      (hasNonEmptyMessages body = false →
        dGet? (inject_concise_system cfg body chosen) "prompt" =
          some (vStr (cfg.DEFAULT_SYSTEM_SHORT ++ "\n\n" ++
            (match dGetN body "prompt" with | vStr s => s | _ => ""))) ∧
        ∀ k, k ≠ "prompt" →
          dGet? (inject_concise_system cfg body chosen) k = dGet? body k)) := by
  refine ⟨?_, ?_, ?_⟩
  · intro hmode
    simp [inject_concise_system, hmode]
  · intro hrag
    unfold inject_concise_system
    split_ifs <;> rfl
  · intro hmode hrag
    constructor
    · intro m rest hmsg
      constructor
      · intro hsys
        simp [inject_concise_system, hmode, hrag, hmsg, hsys]
      · intro hsys
        have hres : inject_concise_system cfg body chosen =
            dSet body "messages" (vList (vDict [("role", vStr "system"),
              ("content", vStr cfg.DEFAULT_SYSTEM_SHORT)] :: m :: rest)) := by
          simp [inject_concise_system, hmode, hrag, hmsg, hsys]
        rw [hres]
        exact ⟨dGet_dSet_self body "messages" _,
          fun k hk => dGet_dSet_ne body "messages" k _ hk⟩
    · intro hne
      have hres : inject_concise_system cfg body chosen =
          dSet body "prompt" (vStr (cfg.DEFAULT_SYSTEM_SHORT ++ "\n\n" ++
            (match dGetN body "prompt" with | vStr s => s | _ => ""))) := by
        unfold inject_concise_system
        rw [if_neg (by simp [hmode]), if_neg (by simp [hrag])]
        cases hM : dGetN body "messages" with
        | vList l =>
          cases l with
          | nil => rfl
          | cons m rest =>
            rw [hasNonEmptyMessages, hM] at hne
            exact Bool.noConfusion hne
        | vNull => rfl
        | vBool b => rfl
        | vInt n => rfl
        | vRat q => rfl
        | vStr t => rfl
        | vDict d => rfl
      rw [hres]
      exact ⟨dGet_dSet_self body "prompt" _,
        fun k hk => dGet_dSet_ne body "prompt" k _ hk⟩

/-- The chat body of the C10 witness. -/
def c10Body : Dict :=
  [("messages", vList [vDict [("role", vStr "user"), ("content", vStr "Hi")]])]

/-- The short-mode preset of the C10 witness. -/
def c10Chosen : Dict := [("_mode", vStr "short")]

/-- C10 witness: the rewrite theorem applied to a concrete short-mode chat
request, prepending the concise system message. -/
theorem c10_inject_concise_witness :
    msgsAreDicts c10Body = true ∧
    dGet? (inject_concise_system cfgC3 c10Body c10Chosen) "messages" =
      some (vList (vDict [("role", vStr "system"),
        ("content", vStr cfgC3.DEFAULT_SYSTEM_SHORT)] ::
        vDict [("role", vStr "user"), ("content", vStr "Hi")] :: [])) :=
  ⟨by decide,
   ((((c10_inject_concise cfgC3 c10Body c10Chosen (by decide)).2.2 rfl rfl).1
     (vDict [("role", vStr "user"), ("content", vStr "Hi")]) [] rfl).2 rfl).1⟩

/-! ## Claim C1: the streaming transformer -/

theorem concatFrags_append (a b : List Dict) :
    concatFrags (a ++ b) = concatFrags a ++ concatFrags b := by
  induction a with
  | nil => simp [concatFrags, String.empty_append]
  | cons d t ih => simp [concatFrags, ih, String.append_assoc]

theorem concatFrags_single (d : Dict) : concatFrags [d] = fragOf d := by
  simp [concatFrags, String.append_empty]

theorem streamGo_append (acc : String) (p : Dict) (r : List Dict) (last : Dict) :
    streamGo acc p (r ++ [last]) =
      (p :: r) ++ streamFinale (acc ++ concatFrags r ++ fragOf last) last := by
  induction r generalizing acc p with
  | nil =>
    simp [streamGo, concatFrags, String.append_empty]
  | cons d t ih =>
    show p :: streamGo (acc ++ fragOf d) d (t ++ [last]) = _
    rw [ih]
    simp [concatFrags, String.append_assoc]

theorem streamTransform_append_last (ls : List Dict) (last : Dict) :
    streamTransform (ls ++ [last]) =
      ls ++ streamFinale (concatFrags (ls ++ [last])) last := by
  cases ls with
  | nil =>
    show streamGo (fragOf last) last [] = streamFinale (concatFrags [last]) last
    rw [concatFrags_single]
    rfl
  | cons d r =>
    show streamGo (fragOf d) d (r ++ [last]) = _
    rw [streamGo_append]
    rw [concatFrags_append, concatFrags_single, concatFrags, String.append_assoc]

theorem foldl_meta_get_response (keys : List String) (pending : Dict) (acc : Dict)
    (h : "response" ∉ keys) :
    dGet? (keys.foldl (fun a k => if dMem pending k then dSet a k (dGetN pending k) else a)
      acc) "response" = dGet? acc "response" := by
  induction keys generalizing acc with
  | nil => rfl
  | cons k t ih =>
    have hk : "response" ∉ t := fun hh => h (List.mem_cons_of_mem k hh)
    have hkk : ("response" : String) ≠ k := fun hh => h (hh ▸ List.mem_cons_self k t)
    show dGet? (t.foldl _ (if dMem pending k then dSet acc k (dGetN pending k) else acc))
      "response" = _
    rw [ih _ hk]
    by_cases hm : dMem pending k = true
    · rw [if_pos hm, dGet_dSet_ne acc k "response" _ hkk]
    · rw [if_neg hm]

theorem fragOf_mkTailChunk (combined : String) (pending : Dict) :
    fragOf (mkTailChunk combined pending) = combined := by
  unfold fragOf mkTailChunk
  rw [foldl_meta_get_response metaKeys pending _ (by decide)]
  rfl

theorem fragOf_finalChunk (withMsg : Dict) :
    fragOf (dSet withMsg "response" (vStr "")) = "" := by
  unfold fragOf
  rw [dGet_dSet_self]

theorem streamFinale_parts (full : String) (last : Dict) (h : isLengthDone last = true) :
    streamFinale full last =
      (if fragOf last ++ tailOfStream full ≠ "" then
        [mkTailChunk (fragOf last ++ tailOfStream full) last] else []) ++
      [dSet (match dGet? last "message" with
        | some (vDict m) => dSet last "message" (vDict (dSet m "content" (vStr (cleanedOf full))))
        | _ => last) "response" (vStr "")] := by
  simp only [streamFinale, h, if_true]

/-- Claim C1's "computed tail": the suffix of the repaired text beyond
what the **earlier forwarded** fragments covered (the code instead diffs
against the accumulated text including the held event's own fragment). -/
def c1ClaimTail (earlier : List Dict) (full : String) : String :=
  let trimmed := cleanedOf full
  let covered := concatFrags earlier
  if covered.data.isPrefixOf trimmed.data then ⟨trimmed.data.drop covered.data.length⟩ else ""

/-- The first event of the C1 counterexample stream. -/
def c1ExD1 : Dict := [("response", vStr "One. ")]

/-- The length-truncated terminal event of the C1 counterexample stream. -/
def c1ExD2 : Dict :=
  [("response", vStr "Two"), ("done", vBool true), ("done_reason", vStr "length")]

/-- C1 (counterexample): for the two-event stream "One. "/"Two" ending in
a length cutoff, the computed tail is empty, yet the transformer emits 3
events, not 2 — the extra event carries the held event's own fragment —
and the concatenation of the forwarded fragments is the raw accumulated
text "One. Two", not the boundary-trimmed "One.". -/
theorem c1_stream_counterexample :
    isLengthDone c1ExD2 = true ∧
    c1ClaimTail [c1ExD1] (concatFrags [c1ExD1, c1ExD2]) = "" ∧
    tailOfStream (concatFrags [c1ExD1, c1ExD2]) = "" ∧
    (streamTransform [c1ExD1, c1ExD2]).length = 3 ∧
    ([c1ExD1, c1ExD2] : List Dict).length = 2 ∧
    (3 : Nat) ≠ 2 ∧
    concatFrags (streamTransform [c1ExD1, c1ExD2]) = "One. Two" ∧
    cleanedOf (concatFrags [c1ExD1, c1ExD2]) = "One." ∧
    ("One. Two" : String) ≠ "One." :=
  ⟨rfl, rfl, rfl, rfl, rfl, by decide, rfl, rfl, by decide⟩

/-- C1 (amended): for an upstream NDJSON stream whose events all parse and
whose last event is a length-truncated terminal event, the transformer
emits N+1 events when the held terminal event's own fragment concatenated
with the computed tail (the suffix of the repaired text beyond the full
accumulated text) is non-empty, and N events otherwise; and the
concatenation of the forwarded fragments equals the accumulated full
response text followed by that computed tail. -/
theorem c1_stream_amended (ls : List Dict) (last : Dict) (h : isLengthDone last = true) :
    (streamTransform (ls ++ [last])).length =
      (ls ++ [last]).length +
        (if fragOf last ++ tailOfStream (concatFrags (ls ++ [last])) ≠ "" then 1 else 0) ∧
    concatFrags (streamTransform (ls ++ [last])) =
      concatFrags (ls ++ [last]) ++ tailOfStream (concatFrags (ls ++ [last])) := by
  rw [streamTransform_append_last ls last,
    streamFinale_parts (concatFrags (ls ++ [last])) last h]
  constructor
  · rw [List.length_append]
    split_ifs with hc
    · simp [List.length_append]
    · simp [List.length_append]
  · rw [concatFrags_append]
    split_ifs with hc
    · rw [concatFrags_append, concatFrags_single, concatFrags_single,
        fragOf_mkTailChunk, fragOf_finalChunk, String.append_empty,
        concatFrags_append, concatFrags_single, String.append_assoc]
    · push_neg at hc
      have hd := congrArg String.data hc
      simp [String.data_append] at hd
      have h1 : fragOf last = "" := congrArg String.mk hd.1
      have h2 : tailOfStream (concatFrags (ls ++ [last])) = "" := congrArg String.mk hd.2
      rw [List.nil_append, concatFrags_single, fragOf_finalChunk, String.append_empty, h2,
        String.append_empty, concatFrags_append, concatFrags_single, h1,
        String.append_empty]

/-- C1 witness: the amended theorem applied to the two-event
counterexample stream (whose extra event comes from the held fragment). -/
theorem c1_stream_amended_witness :
    isLengthDone c1ExD2 = true ∧
    (streamTransform ([c1ExD1] ++ [c1ExD2])).length =
      ([c1ExD1] ++ [c1ExD2]).length +
        (if fragOf c1ExD2 ++ tailOfStream (concatFrags ([c1ExD1] ++ [c1ExD2])) ≠ ""
          then 1 else 0) :=
  ⟨rfl, (c1_stream_amended [c1ExD1] c1ExD2 rfl).1⟩

end Autosizer
